import Mathlib

/-!
Verification of the YouTube-downloader backend (Express server, `server.js`).

The server is shallowly embedded: each route handler becomes a Lean function
over an explicit state (`St`: the `downloadProgress` map, the set of files in
the `temp` directory, and an event trace).  External dependencies — the
`@distube/ytdl-core` extraction library, the network streams it produces, and
the `fluent-ffmpeg` multiplexer — are modelled by a `World` value recording
the outcome of each external call (success / failure, plus the sequence of
`progress` callback ticks each stream delivers).  JavaScript `await`
sequencing is modelled by function composition: a stage's state is threaded
into the next stage, which matches the source, where every stage is awaited
before the next begins.
-/

namespace YT

/-! ## JavaScript string helpers (regexes and `parseInt` used by the server) -/

/-- Decimal value of a digit run, as produced by `parseInt` on a digit string. -/
def digitsToNat (ds : List Char) : Nat :=
  ds.foldl (fun n c => 10 * n + (c.toNat - 48)) 0

/-- Split the maximal leading digit run. -/
def takeDigits : List Char → List Char × List Char
  | [] => ([], [])
  | c :: cs =>
    if c.isDigit then
      let p := takeDigits cs
      (c :: p.1, p.2)
    else ([], c :: cs)

/-- First match of the regex `(\d+)p`, as in `quality.match(/(\d+)p/)?.[1]`:
the leftmost maximal digit run immediately followed by `p`. -/
def firstHeight : List Char → Option Nat
  | [] => none
  | c :: cs =>
    if c.isDigit then
      match takeDigits (c :: cs) with
      | (ds, rest) =>
        match rest with
        | 'p' :: _ => some (digitsToNat ds)
        | _ => firstHeight cs
    else firstHeight cs

/-- `parseInt(s.match(/(\d+)p/)?.[1] || '0')` on the quality string. -/
def parseHeightFromQuality (s : String) : Nat :=
  match firstHeight s.data with
  | some n => n
  | none => 0

/-- `qualityLabel?.replace('p', '')`: drop the first occurrence of `p`. -/
def removeFirstP : List Char → List Char
  | [] => []
  | c :: cs => if c = 'p' then cs else c :: removeFirstP cs

/-- JavaScript `parseInt` on a string: optional leading spaces and sign, then a
digit run; `none` models `NaN` (no digits found). Signs yield integers; the
server only ever parses quality labels, so we keep the unsigned core. -/
def parseIntJS (s : List Char) : Option Nat :=
  match takeDigits (s.dropWhile (· = ' ')) with
  | ([], _) => none
  | (ds, _) => some (digitsToNat ds)

/-- `parseInt(f.qualityLabel?.replace('p','') || '0')` as used by the
stream-download sort comparators; `none` models `NaN`. -/
def streamHeight (qualityLabel : Option String) : Option Nat :=
  match qualityLabel with
  | none => some 0
  | some q => if q = "" then some 0 else parseIntJS (removeFirstP q.data)

/-- `a.isPrefixOf b` for char lists, written out so witnesses can evaluate it. -/
def leadsChars : List Char → List Char → Bool
  | [], _ => true
  | _ :: _, [] => false
  | a :: as, b :: bs => a = b && leadsChars as bs

/-- `String.prototype.includes` on char lists. -/
def containsChars (needle : List Char) : List Char → Bool
  | [] => leadsChars needle []
  | c :: cs => leadsChars needle (c :: cs) || containsChars needle cs

/-- `mimeType?.includes('video/mp4')` (with `undefined` giving a falsy value). -/
def mimeIncludesVideoMp4 (mime : Option String) : Bool :=
  match mime with
  | none => false
  | some m => containsChars "video/mp4".data m.data

/-- JS `\w` (ASCII word character). -/
def isWordCharJS (c : Char) : Bool :=
  ('a' ≤ c && c ≤ 'z') || ('A' ≤ c && c ≤ 'Z') || ('0' ≤ c && c ≤ '9') || c = '_'

/-- JS `\s` (the whitespace characters that occur in video titles). -/
def isSpaceJS (c : Char) : Bool :=
  c = ' ' || c = '\t' || c = '\n' || c = '\r'

/-- `title.replace(/[^\w\s-]/gi, '')`. -/
def stripNonWord (s : List Char) : List Char :=
  s.filter (fun c => isWordCharJS c || isSpaceJS c || c = '-')

/-- `.replace(/\s+/g, '_')`: each maximal whitespace run becomes one `_`. -/
def collapseSpaces : List Char → List Char
  | [] => []
  | [c] => if isSpaceJS c then ['_'] else [c]
  | c :: d :: rest =>
    if isSpaceJS c then
      if isSpaceJS d then collapseSpaces (d :: rest)
      else '_' :: collapseSpaces (d :: rest)
    else c :: collapseSpaces (d :: rest)

/-- `info.videoDetails.title.replace(/[^\w\s-]/gi, '').replace(/\s+/g, '_')`. -/
def sanitizeTitle (t : String) : String :=
  ⟨collapseSpaces (stripNonWord t.data)⟩

/-! ## Decoded format metadata (`info.formats` entries from ytdl-core) -/

/-- One entry of `info.formats` as decoded by the extraction library, with the
fields the server reads.  `contentLength` is a numeric string in the library;
we model it as the number it denotes (absent = `undefined`). -/
structure Format where
  itag : Nat
  hasVideo : Bool
  hasAudio : Bool
  container : String
  mimeType : Option String
  qualityLabel : Option String
  quality : String
  contentLength : Option Nat
  fps : Option Nat
  bitrate : Option Nat
  audioBitrate : Option Nat
  deriving Repr, DecidableEq

/-- `format.contentLength ? Math.round(contentLength / 1024 / 1024) : null`
(`Math.round(x) = ⌊x + 1/2⌋`, and `x / 1048576` with exact rationals). -/
def filesizeMB (contentLength : Option Nat) : Option Nat :=
  contentLength.map (fun n => (2 * n + 1048576) / 2097152)

/-- `format.qualityLabel || format.quality` (JS `||`: empty string is falsy). -/
def jsOrStr (a : Option String) (b : String) : String :=
  match a with
  | some s => if s = "" then b else s
  | none => b

/-- itag values sent back by `/api/info`: numeric library itags or the string
itags of the three presets. -/
inductive ItagVal
  | num (n : Nat)
  | str (s : String)
  deriving Repr, DecidableEq

/-- One entry of the `videoFormats` array in the `/api/info` response.
Fields absent on the preset entries are `none`. -/
structure VFormat where
  quality : String
  itag : ItagVal
  fps : Option Nat
  bitrate : Option Nat
  mimeType : Option String
  filesize : Option Nat
  type : String
  hasAudio : Option Bool
  deriving Repr, DecidableEq

/-- The combined (video+audio) mp4 formats, filtered and mapped as in
`/api/info`. -/
def combinedFormats (formats : List Format) : List VFormat :=
  (formats.filter (fun f => f.hasVideo && f.hasAudio && f.container == "mp4")).map
    (fun f =>
      { quality := jsOrStr f.qualityLabel f.quality ++ " (combined)"
        itag := .num f.itag
        fps := f.fps
        bitrate := f.bitrate
        mimeType := f.mimeType
        filesize := filesizeMB f.contentLength
        type := "combined"
        hasAudio := some true })

/-- JS truthiness of `format.qualityLabel` (present and nonempty). -/
def labelTruthy (l : Option String) : Bool :=
  match l with
  | some s => s ≠ ""
  | none => false

/-- The video-only mp4 formats, filtered and mapped as in `/api/info`. -/
def videoOnlyFormats (formats : List Format) : List VFormat :=
  (formats.filter (fun f =>
      f.hasVideo && !f.hasAudio && labelTruthy f.qualityLabel &&
        (f.container == "mp4" || mimeIncludesVideoMp4 f.mimeType))).map
    (fun f =>
      { quality := (jsOrStr f.qualityLabel "") ++ " (video-only, will merge with audio)"
        itag := .num f.itag
        fps := f.fps
        bitrate := f.bitrate
        mimeType := f.mimeType
        filesize := filesizeMB f.contentLength
        type := "video-only"
        hasAudio := some false })

/-- Resolution height parsed from the constructed quality string (the
comparator's `parseInt(x.quality.match(/(\d+)p/)?.[1] || '0')`). -/
def vfHeight (v : VFormat) : Nat := parseHeightFromQuality v.quality

/-- JS truthiness of the mapped entry's `hasAudio` field. -/
def vfAudio (v : VFormat) : Bool := v.hasAudio.getD false

/-- `a` may stay before `b` under the `/api/info` video comparator
(comparator result ≤ 0): higher parsed height first, and at equal height a
combined format never comes after a video-only one. -/
def videoLe (a b : VFormat) : Bool :=
  if vfHeight a = vfHeight b then vfAudio a || !vfAudio b
  else decide (vfHeight b < vfHeight a)

/-- The sorted, truncated `videoFormats` tail (everything after the presets):
`[...combinedFormats, ...videoOnlyFormats].sort(cmp).slice(0, 15)`.  The JS
engine's `Array.prototype.sort` is stable, as is `List.mergeSort`. -/
def infoVideoFormats (formats : List Format) : List VFormat :=
  ((combinedFormats formats ++ videoOnlyFormats formats).mergeSort videoLe).take 15

/-- The three fixed preset rows of `/api/info`. -/
def presetFormats : List VFormat :=
  [ { quality := "Best Quality (FFmpeg merge)", itag := .str "ffmpeg-best",
      fps := none, bitrate := none, mimeType := none, filesize := none,
      type := "preset", hasAudio := none },
    { quality := "Best Combined Format", itag := .str "highest-audio",
      fps := none, bitrate := none, mimeType := none, filesize := none,
      type := "preset", hasAudio := none },
    { quality := "Medium Quality (FFmpeg merge)", itag := .str "ffmpeg-medium",
      fps := none, bitrate := none, mimeType := none, filesize := none,
      type := "preset", hasAudio := none } ]

/-- The full `videoFormats` array: `[...presetFormats, ...videoFormats]`. -/
def infoVideoList (formats : List Format) : List VFormat :=
  presetFormats ++ infoVideoFormats formats

/-- One entry of the `audioFormats` array in the `/api/info` response. -/
structure AFormat where
  quality : String
  itag : Nat
  bitrate : Option Nat
  mimeType : Option String
  filesize : Option Nat
  deriving Repr, DecidableEq

/-- The audio-only formats, filtered and mapped as in `/api/info`
(`format.audioBitrate ? `${audioBitrate}kbps` : 'Unknown'`; bitrate 0 is
falsy in JS). -/
def audioMapped (formats : List Format) : List AFormat :=
  (formats.filter (fun f => f.hasAudio && !f.hasVideo)).map
    (fun f =>
      { quality :=
          match f.audioBitrate with
          | some b => if b = 0 then "Unknown" else toString b ++ "kbps"
          | none => "Unknown"
        itag := f.itag
        bitrate := f.audioBitrate
        mimeType := f.mimeType
        filesize := filesizeMB f.contentLength })

/-- `a` may stay before `b` under `(b.bitrate || 0) - (a.bitrate || 0)`. -/
def audioLe (a b : AFormat) : Bool :=
  decide (b.bitrate.getD 0 ≤ a.bitrate.getD 0)

/-- `audioFormats`: filter, map, sort by descending bitrate, `slice(0, 5)`. -/
def infoAudioFormats (formats : List Format) : List AFormat :=
  ((audioMapped formats).mergeSort audioLe).take 5

/-! ## The progress map, the temp directory, and the event trace -/

/-- A record of the `downloadProgress` map.  The JS records are plain objects;
fields that some writes omit are `Option`s defaulting to `none`.  The
`ffmpegProgress` sub-object of the merge-tick write is represented by its
`percent` field.  No write in the server ever sets `timestamp`. -/
structure ProgRec where
  status : String
  progress : Int
  stage : String
  downloadedBytes : Option Nat := none
  totalBytes : Option Nat := none
  error : Option String := none
  filePath : Option String := none
  filename : Option String := none
  ffmpegPercent : Option Int := none
  timestamp : Option Nat := none
  deriving Repr, DecidableEq

/-- The status strings the server ever stores. -/
def statusEnum : List String :=
  ["initializing", "downloading", "merging", "completed", "error"]

/-- Observable actions of the backend, in execution order. -/
inductive Event
  | probe
  | selectVideo (itag : Nat)
  | streamVideoDone
  | streamAudioDone
  | mergeDone
  | setP (sid : String) (r : ProgRec)
  | createFile (path : String)
  | deleteFile (path : String)
  | respond (code : Nat)
  deriving Repr, DecidableEq

/-- Server state: the `downloadProgress` map (an association list keyed by
session id), the files present in the temp directory, and the event trace. -/
structure St where
  map : List (String × ProgRec)
  disk : List String
  events : List Event
  deriving Repr, DecidableEq

/-- `Map.prototype.get`. -/
def mapGet (m : List (String × ProgRec)) (k : String) : Option ProgRec :=
  match m with
  | [] => none
  | (k', r) :: rest => if k' = k then some r else mapGet rest k

/-- `Map.prototype.set`. -/
def mapSet (m : List (String × ProgRec)) (k : String) (r : ProgRec) :
    List (String × ProgRec) :=
  match m with
  | [] => [(k, r)]
  | (k', r') :: rest => if k' = k then (k, r) :: rest else (k', r') :: mapSet rest k r

/-- `Map.prototype.delete`. -/
def mapDel (m : List (String × ProgRec)) (k : String) : List (String × ProgRec) :=
  m.filter (fun e => e.1 ≠ k)

/-- `downloadProgress.set(sessionId, r)`. -/
def setProgress (st : St) (sid : String) (r : ProgRec) : St :=
  { st with map := mapSet st.map sid r, events := st.events ++ [.setP sid r] }

/-- Disk contents after a file is opened for writing. -/
def addDisk (d : List String) (p : String) : List String :=
  if d.contains p then d else d ++ [p]

/-- `fs.createWriteStream(p)` opens (creates or truncates) the file. -/
def createF (st : St) (p : String) : St :=
  { st with disk := addDisk st.disk p,
            events := st.events ++ [.createFile p] }

/-- `fs.unlinkSync(p)`. -/
def deleteF (st : St) (p : String) : St :=
  { st with disk := st.disk.filter (· ≠ p), events := st.events ++ [.deleteFile p] }

/-- `fs.existsSync(p)`. -/
def existsF (st : St) (p : String) : Bool := st.disk.contains p

/-- Record an event that changes no state (a resolved external call or an
HTTP response being sent). -/
def logEvent (st : St) (e : Event) : St :=
  { st with events := st.events ++ [e] }

/-! ## External-world outcomes -/

/-- Outcome of one ytdl media stream piped to a write stream: the sequence of
`progress`-event ticks `(downloaded, total)` delivered, then either `finish`
or an error. -/
structure StreamRun where
  ticks : List (Nat × Nat)
  result : Except String Unit

/-- Outcome of one fluent-ffmpeg merge: the `progress.percent` values
delivered (already `Math.round`ed; `none` models an undefined percent), then
`end` or `error`. -/
structure MergeRun where
  ticks : List (Option Int)
  result : Except String Unit

/-- `info` as returned by `ytdl.getInfo`: the fields the server reads. -/
structure VideoInfo where
  title : String
  lengthSeconds : Nat
  formats : List Format

/-- Outcomes of every external call a request can make, plus
`ytdl.validateURL`. -/
structure World where
  validate : String → Bool
  infoResult : Except String VideoInfo
  videoStream : StreamRun
  audioStream : StreamRun
  audioOnly : StreamRun
  regular : StreamRun
  merge : MergeRun

/-- `path.join(__dirname, 'temp')`, relative to the server directory. -/
def tempDir : String := "temp"

/-- `path.join(tempDir, `${title}_${sessionId}.mp3`)`. -/
def mp3Path (title sid : String) : String :=
  tempDir ++ "/" ++ title ++ "_" ++ sid ++ ".mp3"

/-- `path.join(tempDir, `${title}_${sessionId}.mp4`)`. -/
def mp4Path (title sid : String) : String :=
  tempDir ++ "/" ++ title ++ "_" ++ sid ++ ".mp4"

/-- `path.join(tempDir, `${title}_video_${sessionId}.mp4`)`. -/
def videoPath (title sid : String) : String :=
  tempDir ++ "/" ++ title ++ "_video_" ++ sid ++ ".mp4"

/-- `path.join(tempDir, `${title}_audio_${sessionId}.m4a`)`. -/
def audioPath (title sid : String) : String :=
  tempDir ++ "/" ++ title ++ "_audio_" ++ sid ++ ".m4a"

/-- `path.join(tempDir, `${title}_merged_${sessionId}.mp4`)`. -/
def mergedPath (title sid : String) : String :=
  tempDir ++ "/" ++ title ++ "_merged_" ++ sid ++ ".mp4"

/-- `Math.round((downloaded / total) * 100)` on naturals
(`Math.round(x) = ⌊x + 1/2⌋`; the library reports a positive total). -/
def jsRound100 (d t : Nat) : Nat := (200 * d + t) / (2 * t)

/-- `Math.round((downloaded / total) * 25)`. -/
def jsRound25 (d t : Nat) : Nat := (50 * d + t) / (2 * t)

/-- `75 + Math.round(percent * 0.25)` (round half toward positive infinity). -/
def mergeTickProgress (percent : Int) : Int := 75 + (percent + 2).fdiv 4

/-! ## The download pipeline (`downloadAudio`, `downloadRegularVideo`,
`downloadAndMergeWithFFmpeg` and their stream helpers) -/

/-- The record `downloadAudio` stores before piping. -/
def dlAudioRec : ProgRec :=
  { status := "downloading", progress := 0, stage := "Downloading audio..." }

/-- The record `downloadAudio` stores on `finish`. -/
def mp3CompletedRec (title sid : String) : ProgRec :=
  { status := "completed", progress := 100, stage := "Download completed!",
    filePath := some (mp3Path title sid), filename := some (title ++ ".mp3") }

/-- The record `downloadRegularVideo` stores before piping. -/
def dlVideoRec : ProgRec :=
  { status := "downloading", progress := 0, stage := "Downloading video..." }

/-- The record `downloadRegularVideo` stores on `finish`. -/
def mp4CompletedRec (title sid : String) : ProgRec :=
  { status := "completed", progress := 100, stage := "Download completed!",
    filePath := some (mp4Path title sid), filename := some (title ++ ".mp4") }

/-- The record stored before the video-only stream is fetched. -/
def dlStreamVideoRec : ProgRec :=
  { status := "downloading", progress := 0, stage := "Downloading video stream..." }

/-- The record stored before the audio-only stream is fetched. -/
def dlStreamAudioRec : ProgRec :=
  { status := "downloading", progress := 50, stage := "Downloading audio stream..." }

/-- The record stored before the ffmpeg merge starts. -/
def mergingRec : ProgRec :=
  { status := "merging", progress := 75,
    stage := "Merging video and audio with FFmpeg..." }

/-- The `stream.on('progress', ...)` write of `downloadAudio`. -/
def applyAudioTick (sid : String) (st : St) (t : Nat × Nat) : St :=
  let pr := jsRound100 t.1 t.2
  setProgress st sid
    { status := "downloading", progress := pr,
      stage := "Downloading audio... " ++ toString pr ++ "%",
      downloadedBytes := some t.1, totalBytes := some t.2 }

/-- `downloadAudio(url, title, sessionId, itag)` (the mp3 branch).  The ytdl
quality option it builds (`itag && itag !== 'highest' ? itag :
'highestaudio'`) only parameterizes the external stream, whose outcome
`w.audioOnly` already records. -/
def downloadAudio (w : World) (title sid : String) (st : St) : St × Except String Unit :=
  let st := setProgress st sid dlAudioRec
  let st := createF st (mp3Path title sid)
  let st := w.audioOnly.ticks.foldl (applyAudioTick sid) st
  match w.audioOnly.result with
  | .error e => (st, .error e)
  | .ok _ => (setProgress st sid (mp3CompletedRec title sid), .ok ())

/-- Height key of the combined-format sort in `downloadRegularVideo`:
`parseInt(f.qualityLabel?.replace('p','') || '0')`; `none` is `NaN`. -/
def regHeight (f : Format) : Option Nat := streamHeight f.qualityLabel

/-- `a` may stay before `b` under the `downloadRegularVideo` comparator
(height descending, then `(b.bitrate || 0) - (a.bitrate || 0)`; a `NaN`
comparator result counts as equal per the ECMAScript sort specification). -/
def regLe (a b : Format) : Bool :=
  match regHeight a, regHeight b with
  | some x, some y =>
    if x = y then decide (b.bitrate.getD 0 ≤ a.bitrate.getD 0) else decide (y < x)
  | _, _ => true

/-- The ytdl `quality` option `downloadRegularVideo` would pass: the client's
itag unless it is `highest`/`highest-audio`/absent, else the best combined
mp4 format's itag, else the string `highest`. -/
def regularQualityChoice (itag : Option String) (info : VideoInfo) : Option String :=
  match itag with
  | some v =>
    if v ≠ "highest" && v ≠ "highest-audio" then some v
    else
      match (info.formats.filter
          (fun f => f.hasVideo && f.hasAudio && f.container == "mp4")).mergeSort regLe with
      | best :: _ => some (toString best.itag)
      | [] => some "highest"
  | none =>
    match (info.formats.filter
        (fun f => f.hasVideo && f.hasAudio && f.container == "mp4")).mergeSort regLe with
    | best :: _ => some (toString best.itag)
    | [] => some "highest"

/-- The `stream.on('progress', ...)` write of `downloadRegularVideo`. -/
def applyRegularTick (sid : String) (st : St) (t : Nat × Nat) : St :=
  let pr := jsRound100 t.1 t.2
  setProgress st sid
    { status := "downloading", progress := pr,
      stage := "Downloading video... " ++ toString pr ++ "%",
      downloadedBytes := some t.1, totalBytes := some t.2 }

/-- `downloadRegularVideo(url, title, sessionId, itag, info)`. -/
def downloadRegularVideo (w : World) (title sid : String) (itag : Option String)
    (info : VideoInfo) (st : St) : St × Except String Unit :=
  let st := setProgress st sid dlVideoRec
  let _quality := regularQualityChoice itag info
  let st := createF st (mp4Path title sid)
  let st := w.regular.ticks.foldl (applyRegularTick sid) st
  match w.regular.result with
  | .error e => (st, .error e)
  | .ok _ => (setProgress st sid (mp4CompletedRec title sid), .ok ())

/-- `a` may stay before `b` under the `downloadVideoStream` comparator
(`bHeight - aHeight`; a `NaN` result counts as equal). -/
def streamSortLe (a b : Format) : Bool :=
  match regHeight a, regHeight b with
  | some x, some y => decide (y ≤ x)
  | _, _ => true

/-- The video-only formats sorted by descending height, as built at the top
of `downloadVideoStream`. -/
def videoOnlyForStream (formats : List Format) : List Format :=
  (formats.filter (fun f => f.hasVideo && !f.hasAudio)).mergeSort streamSortLe

/-- The format `downloadVideoStream` picks: the first entry when
`useBestQuality`, else the middle entry (`videoFormats[⌊length/2⌋] ||
videoFormats[0]`); `none` when no video-only format exists. -/
def selectedStreamFormat (formats : List Format) (useBest : Bool) : Option Format :=
  match videoOnlyForStream formats with
  | [] => none
  | v0 :: rest =>
    some (if useBest then v0
          else (((v0 :: rest).get? ((v0 :: rest).length / 2)).getD v0))

/-- The `stream.on('progress', ...)` write of `downloadVideoStream` /
`downloadAudioStream`: a spread of the current record with new `progress`
and `stage` (`baseProgress + Math.round((downloaded/total) * 25)`).  The
record is present whenever these run; the fallback mirrors the empty object
a spread of `undefined` would give. -/
def applyStreamTick (sid stype : String) (base : Nat) (st : St) (t : Nat × Nat) : St :=
  let pr : Int := base + jsRound25 t.1 t.2
  let stage := "Downloading " ++ stype ++ " stream... " ++ toString (jsRound100 t.1 t.2) ++ "%"
  match mapGet st.map sid with
  | some c => setProgress st sid { c with progress := pr, stage := stage }
  | none =>
    setProgress st sid
      { status := "undefined", progress := pr, stage := stage }

/-- `downloadVideoStream(url, outputPath, info, useBestQuality, sessionId,
'video')`. -/
def downloadVideoStream (w : World) (outputPath : String) (info : VideoInfo)
    (useBest : Bool) (sid : String) (st : St) : St × Except String Unit :=
  match selectedStreamFormat info.formats useBest with
  | none => (st, .error "No video-only formats found")
  | some f =>
    let st := logEvent st (.selectVideo f.itag)
    let st := createF st outputPath
    let st := w.videoStream.ticks.foldl (applyStreamTick sid "video" 0) st
    match w.videoStream.result with
    | .error e => (st, .error e)
    | .ok _ => (logEvent st .streamVideoDone, .ok ())

/-- `downloadAudioStream(url, outputPath, sessionId, 'audio')`. -/
def downloadAudioStream (w : World) (outputPath : String) (sid : String) (st : St) :
    St × Except String Unit :=
  let st := createF st outputPath
  let st := w.audioStream.ticks.foldl (applyStreamTick sid "audio" 50) st
  match w.audioStream.result with
  | .error e => (st, .error e)
  | .ok _ => (logEvent st .streamAudioDone, .ok ())

/-- The `.on('progress', ...)` write of `mergeWithFFmpeg`
(`Math.round(progress.percent) || 0`; an undefined percent gives 0). -/
def applyMergeTick (sid : String) (st : St) (tick : Option Int) : St :=
  let percent := tick.getD 0
  setProgress st sid
    { status := "merging", progress := mergeTickProgress percent,
      stage := "Merging with FFmpeg... " ++ toString percent ++ "%",
      ffmpegPercent := some percent }

/-- `mergeWithFFmpeg(videoPath, audioPath, outputPath, sessionId)`; ffmpeg's
`.save(outputPath)` opens the output file before progress is reported. -/
def mergeWithFFmpeg (w : World) (outputPath : String) (sid : String) (st : St) :
    St × Except String Unit :=
  let st := createF st outputPath
  let st := w.merge.ticks.foldl (applyMergeTick sid) st
  match w.merge.result with
  | .error e => (st, .error e)
  | .ok _ => (logEvent st .mergeDone, .ok ())

/-- The error-path cleanup of `downloadAndMergeWithFFmpeg`:
`if (fs.existsSync(p)) fs.unlinkSync(p)`. -/
def cleanupIfExists (st : St) (p : String) : St :=
  if existsF st p then deleteF st p else st

/-- `[videoPath, audioPath, outputPath].forEach(p => { if (fs.existsSync(p))
fs.unlinkSync(p); })`, the catch block of `downloadAndMergeWithFFmpeg`. -/
def ffmpegCleanup (st : St) (v a o : String) : St :=
  cleanupIfExists (cleanupIfExists (cleanupIfExists st v) a) o

/-- The record `downloadAndMergeWithFFmpeg` stores on success. -/
def mergedCompletedRec (title sid : String) : ProgRec :=
  { status := "completed", progress := 100,
    stage := "Download and merge completed!",
    filePath := some (mergedPath title sid), filename := some (title ++ "_merged.mp4") }

/-- `downloadAndMergeWithFFmpeg(url, info, title, sessionId, useBestQuality)`. -/
def downloadAndMergeWithFFmpeg (w : World) (info : VideoInfo) (title sid : String)
    (useBest : Bool) (st : St) : St × Except String Unit :=
  let st := setProgress st sid dlStreamVideoRec
  match downloadVideoStream w (videoPath title sid) info useBest sid st with
  | (st, .error e) =>
    (ffmpegCleanup st (videoPath title sid) (audioPath title sid) (mergedPath title sid),
     .error e)
  | (st, .ok _) =>
    let st := setProgress st sid dlStreamAudioRec
    match downloadAudioStream w (audioPath title sid) sid st with
    | (st, .error e) =>
      (ffmpegCleanup st (videoPath title sid) (audioPath title sid) (mergedPath title sid),
       .error e)
    | (st, .ok _) =>
      let st := setProgress st sid mergingRec
      match mergeWithFFmpeg w (mergedPath title sid) sid st with
      | (st, .error e) =>
        (ffmpegCleanup st (videoPath title sid) (audioPath title sid) (mergedPath title sid),
         .error e)
      | (st, .ok _) =>
        let st := deleteF st (videoPath title sid)
        let st := deleteF st (audioPath title sid)
        let st := setProgress st sid (mergedCompletedRec title sid)
        (st, .ok ())

/-! ## Route handlers -/

/-- A parsed request body (`{ url, format, quality, itag }`).  The client's
itag is carried as its string form; the strict-equality branches of the
handler only match its string presets. -/
structure Request where
  url : String
  format : Option String
  quality : Option String
  itag : Option String

/-- Body of a `/api/progress/:sessionId` response: the stored record, or the
literal `{ status: 'not_found' }`. -/
inductive ProgBody
  | found (r : ProgRec)
  | notFound
  deriving Repr, DecidableEq

/-- `GET /api/progress/:sessionId`: reads the map and answers 200.  The
route performs no write; the returned state is the input state. -/
def progressHandler (st : St) (sid : String) : St × Nat × ProgBody :=
  match mapGet st.map sid with
  | some r => (st, 200, .found r)
  | none => (st, 200, .notFound)

/-- Body of a `/api/info` response. -/
inductive InfoBody
  | ok (title : String) (videoFormats : List VFormat) (audioFormats : List AFormat)
  | badUrl
  | failed (details : String)
  deriving Repr, DecidableEq

/-- `POST /api/info`. -/
def infoHandler (w : World) (req : Request) : Nat × InfoBody :=
  if !w.validate req.url then (400, .badUrl)
  else
    match w.infoResult with
    | .error e => (500, .failed e)
    | .ok info =>
      (200, .ok info.title (infoVideoList info.formats) (infoAudioFormats info.formats))

/-- One row of the `/api/debug` response. -/
structure DebugEntry where
  itag : Nat
  quality : String
  container : String
  hasVideo : Bool
  hasAudio : Bool
  mimeType : Option String
  filesize : String
  fps : Option Nat
  audioBitrate : Option Nat
  deriving Repr, DecidableEq

/-- Body of a `/api/debug` response. -/
inductive DebugBody
  | ok (totalFormats : Nat) (formats : List DebugEntry)
  | badUrl
  | failed (details : String)
  deriving Repr, DecidableEq

/-- `POST /api/debug`. -/
def debugHandler (w : World) (req : Request) : Nat × DebugBody :=
  if !w.validate req.url then (400, .badUrl)
  else
    match w.infoResult with
    | .error e => (500, .failed e)
    | .ok info =>
      (200, .ok info.formats.length
        (info.formats.map (fun f =>
          { itag := f.itag
            quality := jsOrStr f.qualityLabel f.quality
            container := f.container
            hasVideo := f.hasVideo
            hasAudio := f.hasAudio
            mimeType := f.mimeType
            filesize :=
              match filesizeMB f.contentLength with
              | some n => toString n ++ " MB"
              | none => "Unknown"
            fps := f.fps
            audioBitrate := f.audioBitrate })))

/-- Body of the immediate `/api/download` response. -/
inductive DlBody
  | started (sid : String)
  | badUrl
  deriving Repr, DecidableEq

/-- Result of one `/api/download` request: the final state, the HTTP response
(sent before the pipeline runs), and the pipeline's outcome (`none` when the
URL was rejected and nothing ran). -/
structure DlOut where
  st : St
  code : Nat
  body : DlBody
  pipeline : Option (Except String Unit)
  deriving Repr

instance : DecidableEq (Except String Unit) := fun a b =>
  match a, b with
  | .ok x, .ok y => isTrue (by cases x; cases y; rfl)
  | .ok _, .error _ => isFalse (fun h => Except.noConfusion h)
  | .error _, .ok _ => isFalse (fun h => Except.noConfusion h)
  | .error x, .error y =>
    if h : x = y then isTrue (by rw [h])
    else isFalse (fun hh => h (Except.error.inj hh))

/-- The record the `/api/download` catch block stores. -/
def errorRec (msg : String) : ProgRec :=
  { status := "error", progress := 0, stage := "Error occurred", error := some msg }

/-- The record `/api/download` stores before responding. -/
def initRec : ProgRec :=
  { status := "initializing", progress := 0, stage := "Getting video information..." }

/-- `POST /api/download`: validate, store the initializing record, respond
with the fresh session id, then run the pipeline; any stage error is caught
and stored as the error record. -/
def downloadHandler (w : World) (req : Request) (sid : String) (st : St) : DlOut :=
  if !w.validate req.url then
    { st := st, code := 400, body := .badUrl, pipeline := none }
  else
    let st := setProgress st sid initRec
    let st := logEvent st (.respond 200)
    match w.infoResult with
    | .error e =>
      { st := setProgress st sid (errorRec e), code := 200, body := .started sid,
        pipeline := some (.error e) }
    | .ok info =>
      let st := logEvent st .probe
      let title := sanitizeTitle info.title
      let run :=
        if req.format = some "mp3" then
          downloadAudio w title sid st
        else if req.itag = some "ffmpeg-best" || req.itag = some "ffmpeg-medium" then
          downloadAndMergeWithFFmpeg w info title sid (req.itag = some "ffmpeg-best") st
        else
          downloadRegularVideo w title sid req.itag info st
      match run with
      | (st, .error e) =>
        { st := setProgress st sid (errorRec e), code := 200, body := .started sid,
          pipeline := some (.error e) }
      | (st, .ok _) =>
        { st := st, code := 200, body := .started sid, pipeline := some (.ok ()) }

/-- Body of a `/api/file/:sessionId` response. -/
inductive FileBody
  | notReady
  | notOnDisk
  | served (path : String) (filename : Option String)
  deriving Repr, DecidableEq

/-- `GET /api/file/:sessionId` (the immediate response; the one-minute
deferred cleanup of a successful transfer is `fileServeCleanup`). -/
def fileHandler (st : St) (sid : String) : St × Nat × FileBody :=
  match mapGet st.map sid with
  | none => (st, 404, .notReady)
  | some p =>
    if p.status ≠ "completed" then (st, 404, .notReady)
    else
      match p.filePath with
      | none => (st, 404, .notOnDisk)
      | some fp =>
        if !existsF st fp then (st, 404, .notOnDisk)
        else (logEvent st (.respond 200), 200, .served fp p.filename)

/-- The `setTimeout` callback run one minute after a successful transfer:
`if (fs.existsSync(filePath)) { fs.unlinkSync(filePath);
downloadProgress.delete(sessionId); }`. -/
def fileServeCleanup (st : St) (sid fp : String) : St :=
  if existsF st fp then { deleteF st fp with map := mapDel (deleteF st fp).map sid }
  else st

/-- One run of the hourly `setInterval` sweep at time `now` (milliseconds):
delete entries whose truthy `timestamp` is older than one hour. -/
def sweepKeep (now : Nat) (r : ProgRec) : Bool :=
  match r.timestamp with
  | none => true
  | some ts => !(decide (ts ≠ 0) && decide (ts < now - 3600000))

/-- The hourly sweep over the whole map. -/
def sweepOnce (now : Nat) (m : List (String × ProgRec)) : List (String × ProgRec) :=
  m.filter (fun e => sweepKeep now e.2)

/-! ## Derived notions used by the theorems -/

/-- The pipeline-stage events of a trace: the probe, the format selection,
the two stream completions, the merge completion, file deletions, and the
write that marks a session completed.  Intermediate progress-percentage
writes are not stages. -/
def isPipelineEvent : Event → Bool
  | .probe => true
  | .selectVideo _ => true
  | .streamVideoDone => true
  | .streamAudioDone => true
  | .mergeDone => true
  | .deleteFile _ => true
  | .setP _ r => r.status == "completed"
  | _ => false

/-- The subtrace of pipeline-stage events. -/
def pipelineTrace (evs : List Event) : List Event :=
  evs.filter isPipelineEvent

/-- All events of a tick burst are progress writes for this session with the
given status and no timestamp. -/
def tickWrites (sid s : String) (zs : List Event) : Prop :=
  ∀ e ∈ zs, ∃ r, e = Event.setP sid r ∧ r.status = s ∧ r.timestamp = none

/-- Which events count as writes or file creations tied to the session:
every progress write is keyed by the session id with an enumerated status
and no timestamp, and every created file is named with the session id. -/
def sessionEvent (sid : String) (e : Event) : Prop :=
  match e with
  | .setP k r => k = sid ∧ r.status ∈ statusEnum ∧ r.timestamp = none
  | .createFile p => ∃ pre post, p = pre ++ sid ++ post
  | _ => True

/-! ## Concrete fixtures used to evaluate the model on explicit inputs -/

/-- A stream run that delivers one progress tick and finishes. -/
def okStream : StreamRun := { ticks := [(5, 10)], result := .ok () }

/-- A stream run that delivers one progress tick and then errors. -/
def failStream : StreamRun := { ticks := [(5, 10)], result := .error "network error" }

/-- A video-only 1080p mp4 format. -/
def sampleVideoOnly : Format :=
  { itag := 137, hasVideo := true, hasAudio := false, container := "mp4",
    mimeType := some "video/mp4", qualityLabel := some "1080p", quality := "hd1080",
    contentLength := some 1000000, fps := some 30, bitrate := some 400000,
    audioBitrate := none }

/-- An audio-only format. -/
def sampleAudioOnly : Format :=
  { itag := 140, hasVideo := false, hasAudio := true, container := "m4a",
    mimeType := some "audio/mp4", qualityLabel := none, quality := "tiny",
    contentLength := some 100000, fps := none, bitrate := some 130000,
    audioBitrate := some 128 }

/-- A combined 360p mp4 format. -/
def sampleCombined : Format :=
  { itag := 18, hasVideo := true, hasAudio := true, container := "mp4",
    mimeType := some "video/mp4", qualityLabel := some "360p", quality := "medium",
    contentLength := some 500000, fps := some 30, bitrate := some 200000,
    audioBitrate := some 96 }

/-- Decoded info for a video titled `T`. -/
def sampleInfo : VideoInfo :=
  { title := "T", lengthSeconds := 10,
    formats := [sampleVideoOnly, sampleAudioOnly, sampleCombined] }

/-- A world where every external call succeeds. -/
def sampleWorld : World :=
  { validate := fun _ => true, infoResult := .ok sampleInfo,
    videoStream := okStream, audioStream := okStream, audioOnly := okStream,
    regular := okStream, merge := { ticks := [some 40], result := .ok () } }

/-- The same world, but the audio-only download stream errors. -/
def failAudioWorld : World := { sampleWorld with audioOnly := failStream }

/-- A request for the FFmpeg best-quality preset. -/
def ffmpegReq : Request :=
  { url := "https://youtu.be/x", format := some "mp4", quality := none,
    itag := some "ffmpeg-best" }

/-- A request for an mp3 download. -/
def mp3Req : Request :=
  { url := "https://youtu.be/x", format := some "mp3", quality := none, itag := none }

/-- The server's starting state. -/
def emptySt : St := { map := [], disk := [], events := [] }

/-! ## Map and state lemmas -/

theorem takeDigits_snd_length (l : List Char) : (takeDigits l).2.length ≤ l.length := by
  induction l with
  | nil => simp [takeDigits]
  | cons c cs ih =>
    simp only [takeDigits]
    split
    · simpa using Nat.le_succ_of_le ih
    · simp


theorem mapGet_mapSet_self (m : List (String × ProgRec)) (k : String) (r : ProgRec) :
    mapGet (mapSet m k r) k = some r := by
  induction m with
  | nil => simp [mapGet, mapSet]
  | cons e rest ih =>
    by_cases h : e.1 = k
    · simp [mapGet, mapSet, h]
    · simp [mapGet, mapSet, h, ih]

theorem mapGet_mapDel_self (m : List (String × ProgRec)) (k : String) :
    mapGet (mapDel m k) k = none := by
  induction m with
  | nil => simp [mapGet, mapDel]
  | cons e rest ih =>
    by_cases h : e.1 = k
    · simpa [mapDel, h] using ih
    · simpa [mapDel, h, mapGet] using ih

/-! ## Projection lemmas for the state operations -/

@[simp] theorem setProgress_map (st : St) (sid : String) (r : ProgRec) :
    (setProgress st sid r).map = mapSet st.map sid r := rfl

@[simp] theorem setProgress_disk (st : St) (sid : String) (r : ProgRec) :
    (setProgress st sid r).disk = st.disk := rfl

@[simp] theorem setProgress_events (st : St) (sid : String) (r : ProgRec) :
    (setProgress st sid r).events = st.events ++ [Event.setP sid r] := rfl

@[simp] theorem createF_map (st : St) (p : String) : (createF st p).map = st.map := rfl

@[simp] theorem createF_disk (st : St) (p : String) :
    (createF st p).disk = addDisk st.disk p := rfl

@[simp] theorem createF_events (st : St) (p : String) :
    (createF st p).events = st.events ++ [Event.createFile p] := rfl

@[simp] theorem deleteF_map (st : St) (p : String) : (deleteF st p).map = st.map := rfl

@[simp] theorem deleteF_disk (st : St) (p : String) :
    (deleteF st p).disk = st.disk.filter (· ≠ p) := rfl

@[simp] theorem deleteF_events (st : St) (p : String) :
    (deleteF st p).events = st.events ++ [Event.deleteFile p] := rfl

@[simp] theorem logEvent_map (st : St) (e : Event) : (logEvent st e).map = st.map := rfl

@[simp] theorem logEvent_disk (st : St) (e : Event) : (logEvent st e).disk = st.disk := rfl

@[simp] theorem logEvent_events (st : St) (e : Event) :
    (logEvent st e).events = st.events ++ [e] := rfl

/-! ## Facts about progress-tick bursts -/

/-- Folding any tick applier that just stores a record for this session:
the disk is untouched, the new events are exactly progress writes with the
invariant `P`, and a record satisfying `P` remains stored. -/
theorem tickFold_facts {α : Type} (sid : String) (g : St → α → St) (P : ProgRec → Prop)
    (hg : ∀ st t c, mapGet st.map sid = some c → P c →
        ∃ r, g st t = setProgress st sid r ∧ P r) :
    ∀ (ticks : List α) (st : St) (c : ProgRec),
      mapGet st.map sid = some c → P c →
      (ticks.foldl g st).disk = st.disk ∧
      (∃ zs, (ticks.foldl g st).events = st.events ++ zs ∧
        ∀ e ∈ zs, ∃ r, e = Event.setP sid r ∧ P r) ∧
      (∃ c', mapGet (ticks.foldl g st).map sid = some c' ∧ P c')
  | [], st, c, hc, hPc => ⟨rfl, ⟨[], by simp, by simp⟩, ⟨c, hc, hPc⟩⟩
  | t :: ts, st, c, hc, hPc => by
    obtain ⟨r, hgr, hPr⟩ := hg st t c hc hPc
    have hnext : mapGet (g st t).map sid = some r := by
      rw [hgr]; exact mapGet_mapSet_self _ _ _
    obtain ⟨hd, ⟨zs, hev, hz⟩, hm⟩ := tickFold_facts sid g P hg ts (g st t) r hnext hPr
    refine ⟨?_, ⟨Event.setP sid r :: zs, ?_, ?_⟩, ?_⟩
    · show (ts.foldl g (g st t)).disk = st.disk
      rw [hd, hgr]; rfl
    · show (ts.foldl g (g st t)).events = st.events ++ (Event.setP sid r :: zs)
      rw [hev, hgr]
      simp [setProgress]
    · intro e he
      rcases List.mem_cons.mp he with he | he
      · exact ⟨r, he, hPr⟩
      · exact hz e he
    · exact hm

/-- `applyAudioTick` always stores a fresh `downloading` record. -/
theorem applyAudioTick_spec (sid : String) (st : St) (t : Nat × Nat) (c : ProgRec)
    (_hc : mapGet st.map sid = some c)
    (_hP : c.status = "downloading" ∧ c.timestamp = none) :
    ∃ r, applyAudioTick sid st t = setProgress st sid r ∧
      r.status = "downloading" ∧ r.timestamp = none :=
  ⟨_, rfl, rfl, rfl⟩

/-- `applyRegularTick` always stores a fresh `downloading` record. -/
theorem applyRegularTick_spec (sid : String) (st : St) (t : Nat × Nat) (c : ProgRec)
    (_hc : mapGet st.map sid = some c)
    (_hP : c.status = "downloading" ∧ c.timestamp = none) :
    ∃ r, applyRegularTick sid st t = setProgress st sid r ∧
      r.status = "downloading" ∧ r.timestamp = none :=
  ⟨_, rfl, rfl, rfl⟩

/-- `applyStreamTick` spreads the current record, keeping its status and
(absent) timestamp. -/
theorem applyStreamTick_spec (sid stype : String) (base : Nat) (st : St) (t : Nat × Nat)
    (c : ProgRec) (hc : mapGet st.map sid = some c)
    (hP : c.status = "downloading" ∧ c.timestamp = none) :
    ∃ r, applyStreamTick sid stype base st t = setProgress st sid r ∧
      r.status = "downloading" ∧ r.timestamp = none := by
  unfold applyStreamTick
  rw [hc]
  exact ⟨_, rfl, hP.1, hP.2⟩

/-- `applyMergeTick` always stores a fresh `merging` record. -/
theorem applyMergeTick_spec (sid : String) (st : St) (t : Option Int) (c : ProgRec)
    (_hc : mapGet st.map sid = some c)
    (_hP : c.status = "merging" ∧ c.timestamp = none) :
    ∃ r, applyMergeTick sid st t = setProgress st sid r ∧
      r.status = "merging" ∧ r.timestamp = none :=
  ⟨_, rfl, rfl, rfl⟩

/-- A tick burst contains no pipeline-stage events. -/
theorem tickWrites_pipelineTrace (sid s : String) (zs : List Event)
    (h : tickWrites sid s zs) (hs : s ≠ "completed") :
    pipelineTrace zs = [] := by
  refine List.filter_eq_nil_iff.mpr ?_
  intro e he
  obtain ⟨r, he', hst, _⟩ := h e he
  subst he'
  simp [isPipelineEvent, hst, hs]

/-- A tick burst contains none of the four stage-completion events. -/
theorem tickWrites_counts (sid s : String) (zs : List Event) (h : tickWrites sid s zs) :
    zs.count Event.probe = 0 ∧ zs.count Event.streamVideoDone = 0 ∧
    zs.count Event.streamAudioDone = 0 ∧ zs.count Event.mergeDone = 0 := by
  refine ⟨?_, ?_, ?_, ?_⟩ <;>
    · refine List.count_eq_zero.mpr ?_
      intro hm
      obtain ⟨r, he, _⟩ := h _ hm
      cases he

/-! ## Facts about the pipeline stage functions -/

theorem downloadAudio_facts (w : World) (title sid : String) (st : St) :
    ∃ zs, tickWrites sid "downloading" zs ∧
      (downloadAudio w title sid st).1.events =
        st.events ++ [Event.setP sid dlAudioRec, Event.createFile (mp3Path title sid)] ++
          zs ++
          (match w.audioOnly.result with
            | .ok _ => [Event.setP sid (mp3CompletedRec title sid)]
            | .error _ => []) ∧
      (downloadAudio w title sid st).1.disk = addDisk st.disk (mp3Path title sid) ∧
      (downloadAudio w title sid st).2 = w.audioOnly.result := by
  have hc : mapGet (createF (setProgress st sid dlAudioRec) (mp3Path title sid)).map sid
      = some dlAudioRec := mapGet_mapSet_self _ _ _
  obtain ⟨hd, ⟨zs, hev, hz⟩, -⟩ :=
    tickFold_facts sid (applyAudioTick sid)
      (fun r => r.status = "downloading" ∧ r.timestamp = none)
      (fun st t c hc hP => applyAudioTick_spec sid st t c hc hP)
      w.audioOnly.ticks _ dlAudioRec hc ⟨rfl, rfl⟩
  refine ⟨zs, ?_, ?_, ?_, ?_⟩
  · intro e he
    obtain ⟨r, h1, h2, h3⟩ := hz e he
    exact ⟨r, h1, h2, h3⟩
  · cases hres : w.audioOnly.result with
    | error e =>
      simp only [downloadAudio, hres]
      simp [hev, List.append_assoc]
    | ok u =>
      simp only [downloadAudio, hres]
      simp [hev, List.append_assoc]
  · cases hres : w.audioOnly.result with
    | error e =>
      simp only [downloadAudio, hres]
      simp [hd]
    | ok u =>
      simp only [downloadAudio, hres]
      simp [hd]
  · cases hres : w.audioOnly.result with
    | error e => simp only [downloadAudio, hres]
    | ok u => simp only [downloadAudio, hres]

theorem downloadRegularVideo_facts (w : World) (title sid : String)
    (itag : Option String) (info : VideoInfo) (st : St) :
    ∃ zs, tickWrites sid "downloading" zs ∧
      (downloadRegularVideo w title sid itag info st).1.events =
        st.events ++ [Event.setP sid dlVideoRec, Event.createFile (mp4Path title sid)] ++
          zs ++
          (match w.regular.result with
            | .ok _ => [Event.setP sid (mp4CompletedRec title sid)]
            | .error _ => []) ∧
      (downloadRegularVideo w title sid itag info st).1.disk =
        addDisk st.disk (mp4Path title sid) ∧
      (downloadRegularVideo w title sid itag info st).2 = w.regular.result := by
  have hc : mapGet (createF (setProgress st sid dlVideoRec) (mp4Path title sid)).map sid
      = some dlVideoRec := mapGet_mapSet_self _ _ _
  obtain ⟨hd, ⟨zs, hev, hz⟩, -⟩ :=
    tickFold_facts sid (applyRegularTick sid)
      (fun r => r.status = "downloading" ∧ r.timestamp = none)
      (fun st t c hc hP => applyRegularTick_spec sid st t c hc hP)
      w.regular.ticks _ dlVideoRec hc ⟨rfl, rfl⟩
  refine ⟨zs, ?_, ?_, ?_, ?_⟩
  · intro e he
    obtain ⟨r, h1, h2, h3⟩ := hz e he
    exact ⟨r, h1, h2, h3⟩
  · cases hres : w.regular.result with
    | error e =>
      simp only [downloadRegularVideo, hres]
      simp [hev, List.append_assoc]
    | ok u =>
      simp only [downloadRegularVideo, hres]
      simp [hev, List.append_assoc]
  · cases hres : w.regular.result with
    | error e =>
      simp only [downloadRegularVideo, hres]
      simp [hd]
    | ok u =>
      simp only [downloadRegularVideo, hres]
      simp [hd]
  · cases hres : w.regular.result with
    | error e => simp only [downloadRegularVideo, hres]
    | ok u => simp only [downloadRegularVideo, hres]

theorem downloadVideoStream_none (w : World) (p : String) (info : VideoInfo)
    (useBest : Bool) (sid : String) (st : St)
    (hsel : selectedStreamFormat info.formats useBest = none) :
    downloadVideoStream w p info useBest sid st =
      (st, .error "No video-only formats found") := by
  simp [downloadVideoStream, hsel]

theorem downloadVideoStream_facts (w : World) (p : String) (info : VideoInfo)
    (useBest : Bool) (sid : String) (st : St) (f : Format) (c : ProgRec)
    (hsel : selectedStreamFormat info.formats useBest = some f)
    (hc : mapGet st.map sid = some c)
    (hP : c.status = "downloading" ∧ c.timestamp = none) :
    ∃ zs, tickWrites sid "downloading" zs ∧
      (downloadVideoStream w p info useBest sid st).1.events =
        st.events ++ [Event.selectVideo f.itag, Event.createFile p] ++ zs ++
          (match w.videoStream.result with
            | .ok _ => [Event.streamVideoDone]
            | .error _ => []) ∧
      (downloadVideoStream w p info useBest sid st).1.disk = addDisk st.disk p ∧
      (downloadVideoStream w p info useBest sid st).2 = w.videoStream.result := by
  have hc' : mapGet (createF (logEvent st (Event.selectVideo f.itag)) p).map sid
      = some c := hc
  obtain ⟨hd, ⟨zs, hev, hz⟩, -⟩ :=
    tickFold_facts sid (applyStreamTick sid "video" 0)
      (fun r => r.status = "downloading" ∧ r.timestamp = none)
      (fun st t c hc hP => applyStreamTick_spec sid "video" 0 st t c hc hP)
      w.videoStream.ticks _ c hc' hP
  refine ⟨zs, ?_, ?_, ?_, ?_⟩
  · intro e he
    obtain ⟨r, h1, h2, h3⟩ := hz e he
    exact ⟨r, h1, h2, h3⟩
  · cases hres : w.videoStream.result with
    | error e =>
      simp only [downloadVideoStream, hsel, hres]
      simp [hev, List.append_assoc]
    | ok u =>
      simp only [downloadVideoStream, hsel, hres]
      simp [hev, List.append_assoc]
  · cases hres : w.videoStream.result with
    | error e =>
      simp only [downloadVideoStream, hsel, hres]
      simp [hd]
    | ok u =>
      simp only [downloadVideoStream, hsel, hres]
      simp [hd]
  · cases hres : w.videoStream.result with
    | error e => simp only [downloadVideoStream, hsel, hres]
    | ok u => simp only [downloadVideoStream, hsel, hres]

theorem downloadAudioStream_facts (w : World) (p sid : String) (st : St) (c : ProgRec)
    (hc : mapGet st.map sid = some c)
    (hP : c.status = "downloading" ∧ c.timestamp = none) :
    ∃ zs, tickWrites sid "downloading" zs ∧
      (downloadAudioStream w p sid st).1.events =
        st.events ++ [Event.createFile p] ++ zs ++
          (match w.audioStream.result with
            | .ok _ => [Event.streamAudioDone]
            | .error _ => []) ∧
      (downloadAudioStream w p sid st).1.disk = addDisk st.disk p ∧
      (downloadAudioStream w p sid st).2 = w.audioStream.result := by
  have hc' : mapGet (createF st p).map sid = some c := hc
  obtain ⟨hd, ⟨zs, hev, hz⟩, -⟩ :=
    tickFold_facts sid (applyStreamTick sid "audio" 50)
      (fun r => r.status = "downloading" ∧ r.timestamp = none)
      (fun st t c hc hP => applyStreamTick_spec sid "audio" 50 st t c hc hP)
      w.audioStream.ticks _ c hc' hP
  refine ⟨zs, ?_, ?_, ?_, ?_⟩
  · intro e he
    obtain ⟨r, h1, h2, h3⟩ := hz e he
    exact ⟨r, h1, h2, h3⟩
  · cases hres : w.audioStream.result with
    | error e =>
      simp only [downloadAudioStream, hres]
      simp [hev, List.append_assoc]
    | ok u =>
      simp only [downloadAudioStream, hres]
      simp [hev, List.append_assoc]
  · cases hres : w.audioStream.result with
    | error e =>
      simp only [downloadAudioStream, hres]
      simp [hd]
    | ok u =>
      simp only [downloadAudioStream, hres]
      simp [hd]
  · cases hres : w.audioStream.result with
    | error e => simp only [downloadAudioStream, hres]
    | ok u => simp only [downloadAudioStream, hres]

theorem mergeWithFFmpeg_facts (w : World) (p sid : String) (st : St) (c : ProgRec)
    (hc : mapGet st.map sid = some c)
    (hP : c.status = "merging" ∧ c.timestamp = none) :
    ∃ zs, tickWrites sid "merging" zs ∧
      (mergeWithFFmpeg w p sid st).1.events =
        st.events ++ [Event.createFile p] ++ zs ++
          (match w.merge.result with
            | .ok _ => [Event.mergeDone]
            | .error _ => []) ∧
      (mergeWithFFmpeg w p sid st).1.disk = addDisk st.disk p ∧
      (mergeWithFFmpeg w p sid st).2 = w.merge.result := by
  have hc' : mapGet (createF st p).map sid = some c := hc
  obtain ⟨hd, ⟨zs, hev, hz⟩, -⟩ :=
    tickFold_facts sid (applyMergeTick sid)
      (fun r => r.status = "merging" ∧ r.timestamp = none)
      (fun st t c hc hP => applyMergeTick_spec sid st t c hc hP)
      w.merge.ticks _ c hc' hP
  refine ⟨zs, ?_, ?_, ?_, ?_⟩
  · intro e he
    obtain ⟨r, h1, h2, h3⟩ := hz e he
    exact ⟨r, h1, h2, h3⟩
  · cases hres : w.merge.result with
    | error e =>
      simp only [mergeWithFFmpeg, hres]
      simp [hev, List.append_assoc]
    | ok u =>
      simp only [mergeWithFFmpeg, hres]
      simp [hev, List.append_assoc]
  · cases hres : w.merge.result with
    | error e =>
      simp only [mergeWithFFmpeg, hres]
      simp [hd]
    | ok u =>
      simp only [mergeWithFFmpeg, hres]
      simp [hd]
  · cases hres : w.merge.result with
    | error e => simp only [mergeWithFFmpeg, hres]
    | ok u => simp only [mergeWithFFmpeg, hres]

theorem cleanupIfExists_facts (st : St) (p : String) :
    (cleanupIfExists st p).map = st.map ∧
    (∃ zs, (cleanupIfExists st p).events = st.events ++ zs ∧
        ∀ e ∈ zs, e = Event.deleteFile p) ∧
    (cleanupIfExists st p).disk = st.disk.filter (· ≠ p) := by
  unfold cleanupIfExists
  by_cases h : existsF st p
  · simp only [h, if_true]
    exact ⟨rfl, ⟨[Event.deleteFile p], by simp, by simp⟩, rfl⟩
  · simp only [h, if_false]
    refine ⟨rfl, ⟨[], by simp, by simp⟩, ?_⟩
    have hnm : p ∉ st.disk := by
      intro hmem
      exact h ((List.elem_iff).mpr hmem)
    exact (List.filter_eq_self.mpr (fun a ha => by
      simp only [decide_eq_true_eq]
      intro hap
      exact hnm (hap ▸ ha))).symm

theorem ffmpegCleanup_facts (st : St) (v a o : String) :
    (ffmpegCleanup st v a o).map = st.map ∧
    (∃ zs, (ffmpegCleanup st v a o).events = st.events ++ zs ∧
        ∀ e ∈ zs, e = Event.deleteFile v ∨ e = Event.deleteFile a ∨
          e = Event.deleteFile o) ∧
    ((∀ x ∈ st.disk, x = v ∨ x = a ∨ x = o) → (ffmpegCleanup st v a o).disk = []) := by
  obtain ⟨hm1, ⟨z1, he1, hz1⟩, hd1⟩ := cleanupIfExists_facts st v
  obtain ⟨hm2, ⟨z2, he2, hz2⟩, hd2⟩ := cleanupIfExists_facts (cleanupIfExists st v) a
  obtain ⟨hm3, ⟨z3, he3, hz3⟩, hd3⟩ :=
    cleanupIfExists_facts (cleanupIfExists (cleanupIfExists st v) a) o
  refine ⟨?_, ⟨z1 ++ z2 ++ z3, ?_, ?_⟩, ?_⟩
  · show (cleanupIfExists (cleanupIfExists (cleanupIfExists st v) a) o).map = st.map
    rw [hm3, hm2, hm1]
  · show (cleanupIfExists (cleanupIfExists (cleanupIfExists st v) a) o).events = _
    rw [he3, he2, he1]
    simp [List.append_assoc]
  · intro e he
    rcases List.mem_append.mp he with he | he
    · rcases List.mem_append.mp he with he | he
      · exact Or.inl (hz1 e he)
      · exact Or.inr (Or.inl (hz2 e he))
    · exact Or.inr (Or.inr (hz3 e he))
  · intro hall
    show (cleanupIfExists (cleanupIfExists (cleanupIfExists st v) a) o).disk = []
    rw [hd3, hd2, hd1]
    refine List.filter_eq_nil_iff.mpr ?_
    intro x hx
    have hx2 := List.mem_filter.mp hx
    have hx3 := List.mem_filter.mp hx2.1
    have hxd := hx3.1
    have hxv : x ≠ v := by simpa using hx3.2
    have hxa : x ≠ a := by simpa using hx2.2
    rcases hall x hxd with h | h | h
    · exact absurd h hxv
    · exact absurd h hxa
    · simp [h]

theorem mem_addDisk (d : List String) (p x : String) (h : x ∈ addDisk d p) :
    x ∈ d ∨ x = p := by
  unfold addDisk at h
  split at h
  · exact Or.inl h
  · rcases List.mem_append.mp h with h | h
    · exact Or.inl h
    · exact Or.inr (by simpa using h)

theorem mp3Path_names_sid (title sid : String) :
    ∃ pre post, mp3Path title sid = pre ++ sid ++ post :=
  ⟨tempDir ++ "/" ++ title ++ "_", ".mp3", rfl⟩

theorem mp4Path_names_sid (title sid : String) :
    ∃ pre post, mp4Path title sid = pre ++ sid ++ post :=
  ⟨tempDir ++ "/" ++ title ++ "_", ".mp4", rfl⟩

theorem videoPath_names_sid (title sid : String) :
    ∃ pre post, videoPath title sid = pre ++ sid ++ post :=
  ⟨tempDir ++ "/" ++ title ++ "_video_", ".mp4", rfl⟩

theorem audioPath_names_sid (title sid : String) :
    ∃ pre post, audioPath title sid = pre ++ sid ++ post :=
  ⟨tempDir ++ "/" ++ title ++ "_audio_", ".m4a", rfl⟩

theorem mergedPath_names_sid (title sid : String) :
    ∃ pre post, mergedPath title sid = pre ++ sid ++ post :=
  ⟨tempDir ++ "/" ++ title ++ "_merged_", ".mp4", rfl⟩

/-! ## Sort-comparator lemmas for `/api/info` -/

theorem videoLe_trans (a b c : VFormat) (hab : videoLe a b = true)
    (hbc : videoLe b c = true) : videoLe a c = true := by
  unfold videoLe at *
  by_cases h1 : vfHeight a = vfHeight b <;> by_cases h2 : vfHeight b = vfHeight c
  · simp only [if_pos h1] at hab
    simp only [if_pos h2] at hbc
    simp only [if_pos (h1.trans h2)]
    cases ha : vfAudio a <;> cases hb : vfAudio b <;> cases hc : vfAudio c <;>
      simp_all
  · simp only [if_pos h1] at hab
    simp only [if_neg h2] at hbc
    have hlt : vfHeight c < vfHeight b := by simpa using hbc
    rw [h1]
    simp only [if_neg (by omega : ¬ vfHeight b = vfHeight c)]
    simpa using hlt
  · simp only [if_neg h1] at hab
    simp only [if_pos h2] at hbc
    have hlt : vfHeight b < vfHeight a := by simpa using hab
    simp only [if_neg (by omega : ¬ vfHeight a = vfHeight c)]
    simp
    omega
  · simp only [if_neg h1] at hab
    simp only [if_neg h2] at hbc
    have hlt1 : vfHeight b < vfHeight a := by simpa using hab
    have hlt2 : vfHeight c < vfHeight b := by simpa using hbc
    simp only [if_neg (by omega : ¬ vfHeight a = vfHeight c)]
    simp
    omega

theorem videoLe_total (a b : VFormat) : videoLe a b || videoLe b a := by
  unfold videoLe
  by_cases h : vfHeight a = vfHeight b
  · simp only [if_pos h, if_pos h.symm]
    cases ha : vfAudio a <;> cases hb : vfAudio b <;> simp
  · simp only [if_neg h, if_neg (Ne.symm h)]
    simp only [Bool.or_eq_true, decide_eq_true_eq]
    omega

theorem audioLe_trans (a b c : AFormat) (hab : audioLe a b = true)
    (hbc : audioLe b c = true) : audioLe a c = true := by
  simp only [audioLe, decide_eq_true_eq] at *
  omega

theorem audioLe_total (a b : AFormat) : audioLe a b || audioLe b a := by
  simp only [audioLe]
  rcases Nat.le_total (a.bitrate.getD 0) (b.bitrate.getD 0) with h | h <;> simp [h]

/-- C5: `POST /api/info` selects options purely by filtering and sorting the
decoded format metadata: `videoFormats` is the three fixed presets followed
by at most 15 entries drawn from the mp4 combined and mp4 video-only
formats, sorted by descending parsed resolution height with combined
formats never after video-only formats of equal height (`videoLe` is
exactly the comparator's "stays before" relation); `audioFormats` is at
most 5 audio-only entries sorted by descending audio bitrate. -/
theorem info_option_selection (formats : List Format) :
    (infoVideoList formats).take 3 = presetFormats ∧
    infoVideoList formats = presetFormats ++ infoVideoFormats formats ∧
    (infoVideoFormats formats).length ≤ 15 ∧
    (∀ x ∈ infoVideoFormats formats,
        x ∈ combinedFormats formats ∨ x ∈ videoOnlyFormats formats) ∧
    (infoVideoFormats formats).Pairwise (fun a b => videoLe a b = true) ∧
    (infoAudioFormats formats).length ≤ 5 ∧
    (∀ x ∈ infoAudioFormats formats, x ∈ audioMapped formats) ∧
    (infoAudioFormats formats).Pairwise (fun a b => audioLe a b = true) := by
  refine ⟨?_, rfl, ?_, ?_, ?_, ?_, ?_, ?_⟩
  · show (presetFormats ++ infoVideoFormats formats).take 3 = presetFormats
    have h3 : presetFormats.length = 3 := rfl
    rw [← h3, List.take_left]
  · exact List.length_take_le _ _
  · intro x hx
    have hx' := List.take_subset _ _ hx
    exact List.mem_append.mp (List.mem_mergeSort.mp hx')
  · exact List.Pairwise.sublist (List.take_sublist _ _)
      (List.sorted_mergeSort videoLe_trans videoLe_total _)
  · exact List.length_take_le _ _
  · intro x hx
    have hx' := List.take_subset _ _ hx
    exact List.mem_mergeSort.mp hx'
  · exact List.Pairwise.sublist (List.take_sublist _ _)
      (List.sorted_mergeSort audioLe_trans audioLe_total _)

theorem info_option_selection_witness :
    (infoVideoList sampleInfo.formats).take 3 = presetFormats ∧
    (∀ x ∈ infoVideoFormats sampleInfo.formats,
        x ∈ combinedFormats sampleInfo.formats ∨
          x ∈ videoOnlyFormats sampleInfo.formats) :=
  ⟨(info_option_selection sampleInfo.formats).1,
   (info_option_selection sampleInfo.formats).2.2.2.1⟩

/-- C8: when URL validation fails, `/api/info`, `/api/debug` and
`/api/download` each answer 400 with the invalid-URL error body; the
download handler returns its state unchanged (no progress-map entry, no
event) and its response carries no session id. -/
theorem invalid_url_rejected (w : World) (req : Request) (sid : String) (st : St)
    (h : w.validate req.url = false) :
    infoHandler w req = (400, .badUrl) ∧
    debugHandler w req = (400, .badUrl) ∧
    downloadHandler w req sid st =
      { st := st, code := 400, body := .badUrl, pipeline := none } := by
  refine ⟨?_, ?_, ?_⟩ <;> simp [infoHandler, debugHandler, downloadHandler, h]

theorem invalid_url_rejected_witness :
    (fun _ => false : String → Bool) "u" = false ∧
    downloadHandler
      { validate := fun _ => false, infoResult := .error "x",
        videoStream := ⟨[], .ok ()⟩, audioStream := ⟨[], .ok ()⟩,
        audioOnly := ⟨[], .ok ()⟩, regular := ⟨[], .ok ()⟩,
        merge := ⟨[], .ok ()⟩ }
      { url := "u", format := none, quality := none, itag := none } "S"
      { map := [], disk := [], events := [] } =
      { st := { map := [], disk := [], events := [] }, code := 400,
        body := .badUrl, pipeline := none } :=
  ⟨rfl,
    (invalid_url_rejected
      { validate := fun _ => false, infoResult := .error "x",
        videoStream := ⟨[], .ok ()⟩, audioStream := ⟨[], .ok ()⟩,
        audioOnly := ⟨[], .ok ()⟩, regular := ⟨[], .ok ()⟩,
        merge := ⟨[], .ok ()⟩ }
      { url := "u", format := none, quality := none, itag := none } "S"
      { map := [], disk := [], events := [] } rfl).2.2⟩

/-- C10: polling an unknown session id yields HTTP 200 with the literal
`{ status: 'not_found' }` body, and the handler does not touch the map. -/
theorem progress_unknown_session (st : St) (sid : String)
    (h : mapGet st.map sid = none) :
    progressHandler st sid = (st, 200, .notFound) := by
  simp [progressHandler, h]

theorem progress_unknown_session_witness :
    progressHandler { map := [], disk := [], events := [] } "S" =
      ({ map := [], disk := [], events := [] }, 200, .notFound) :=
  progress_unknown_session { map := [], disk := [], events := [] } "S" rfl

/-- C9: `/api/file/:sessionId` serves the recorded path and filename exactly
when the session's record exists with status `completed` and the recorded
path is on disk (emitting only the response event); in every other case it
answers 404 and returns the state — map and disk — unchanged. -/
theorem file_serving_characterized (st : St) (sid : String) :
    ((fileHandler st sid).2.1 = 200 ↔
      ∃ r fp, mapGet st.map sid = some r ∧ r.status = "completed" ∧
        r.filePath = some fp ∧ existsF st fp = true) ∧
    (∀ r fp, mapGet st.map sid = some r → r.status = "completed" →
      r.filePath = some fp → existsF st fp = true →
      fileHandler st sid =
        (logEvent st (Event.respond 200), 200, .served fp r.filename)) ∧
    ((fileHandler st sid).2.1 ≠ 200 →
      (fileHandler st sid).2.1 = 404 ∧ (fileHandler st sid).1 = st) := by
  unfold fileHandler
  refine ⟨?_, ?_, ?_⟩
  · constructor
    · intro h
      cases hm : mapGet st.map sid with
      | none => simp [hm] at h
      | some p =>
        simp only [hm] at h
        by_cases hs : p.status = "completed"
        · simp only [hs, ne_eq, not_true_eq_false, if_false] at h
          cases hfp : p.filePath with
          | none => simp [hfp] at h
          | some fp =>
            simp only [hfp] at h
            by_cases he : existsF st fp
            · exact ⟨p, fp, by simp [hm], hs, hfp, he⟩
            · simp [he] at h
        · simp [hs] at h
    · rintro ⟨r, fp, hm, hs, hfp, he⟩
      simp [hm, hs, hfp, he]
  · intro r fp hm hs hfp he
    simp [hm, hs, hfp, he]
  · intro h
    cases hm : mapGet st.map sid with
    | none => simp [hm]
    | some p =>
      simp only [hm] at h ⊢
      by_cases hs : p.status = "completed"
      · simp only [hs, ne_eq, not_true_eq_false, if_false] at h ⊢
        cases hfp : p.filePath with
        | none => simp [hfp]
        | some fp =>
          simp only [hfp] at h ⊢
          by_cases he : existsF st fp
          · simp [he] at h
          · simp [he]
      · simp [hs]

theorem file_serving_characterized_witness :
    mapGet [("S", mergedCompletedRec "T" "S")] "S" = some (mergedCompletedRec "T" "S") ∧
    fileHandler
        { map := [("S", mergedCompletedRec "T" "S")],
          disk := [mergedPath "T" "S"], events := [] } "S" =
      (logEvent
        { map := [("S", mergedCompletedRec "T" "S")],
          disk := [mergedPath "T" "S"], events := [] } (Event.respond 200),
       200, .served (mergedPath "T" "S") (some "T_merged.mp4")) :=
  ⟨rfl,
    (file_serving_characterized
      { map := [("S", mergedCompletedRec "T" "S")],
        disk := [mergedPath "T" "S"], events := [] } "S").2.1
      (mergedCompletedRec "T" "S") (mergedPath "T" "S") rfl rfl rfl (by decide)⟩

/-! ## Facts about the download handler -/

theorem deleteWrites_counts (v a o : String) (zs : List Event)
    (h : ∀ e ∈ zs, e = Event.deleteFile v ∨ e = Event.deleteFile a ∨
        e = Event.deleteFile o) :
    zs.count Event.probe = 0 ∧ zs.count Event.streamVideoDone = 0 ∧
    zs.count Event.streamAudioDone = 0 ∧ zs.count Event.mergeDone = 0 := by
  refine ⟨?_, ?_, ?_, ?_⟩ <;>
  · refine List.count_eq_zero.mpr ?_
    intro hm
    rcases h _ hm with h' | h' | h' <;> exact Event.noConfusion h'

set_option maxHeartbeats 1000000 in
theorem ffmpeg_facts (w : World) (info : VideoInfo) (title sid : String)
    (useBest : Bool) (st : St) :
    ∃ zs,
      (downloadAndMergeWithFFmpeg w info title sid useBest st).1.events =
        st.events ++ zs ∧
      (∀ e ∈ zs, sessionEvent sid e) ∧
      zs.count Event.probe = 0 ∧
      zs.count Event.streamVideoDone ≤ 1 ∧
      zs.count Event.streamAudioDone ≤ 1 ∧
      zs.count Event.mergeDone ≤ 1 ∧
      (∀ e, (downloadAndMergeWithFFmpeg w info title sid useBest st).2 = .error e →
        st.disk = [] →
        (downloadAndMergeWithFFmpeg w info title sid useBest st).1.disk = []) ∧
      ((downloadAndMergeWithFFmpeg w info title sid useBest st).2 = .ok () →
        (∃ f, selectedStreamFormat info.formats useBest = some f ∧
          pipelineTrace zs =
            [Event.selectVideo f.itag, Event.streamVideoDone, Event.streamAudioDone,
             Event.mergeDone, Event.deleteFile (videoPath title sid),
             Event.deleteFile (audioPath title sid),
             Event.setP sid (mergedCompletedRec title sid)]) ∧
        mapGet (downloadAndMergeWithFFmpeg w info title sid useBest st).1.map sid =
          some (mergedCompletedRec title sid)) := by
  cases hsel : selectedStreamFormat info.formats useBest with
  | none =>
    have hnone := downloadVideoStream_none w (videoPath title sid) info useBest sid
      (setProgress st sid dlStreamVideoRec) hsel
    obtain ⟨hcm, ⟨zc, hce, hcz⟩, hcd⟩ :=
      ffmpegCleanup_facts (setProgress st sid dlStreamVideoRec)
        (videoPath title sid) (audioPath title sid) (mergedPath title sid)
    have hzc0 : ∀ ev, ev ∈ zc → (ev = Event.deleteFile (videoPath title sid) ∨
        ev = Event.deleteFile (audioPath title sid) ∨
        ev = Event.deleteFile (mergedPath title sid)) := hcz
    refine ⟨Event.setP sid dlStreamVideoRec :: zc, ?_, ?_, ?_, ?_, ?_, ?_, ?_, ?_⟩
    · simp only [downloadAndMergeWithFFmpeg, hnone]
      simp [hce, List.append_assoc]
    · intro ev hev
      rcases List.mem_cons.mp hev with h | h
      · subst h; exact ⟨rfl, by simp [dlStreamVideoRec, statusEnum], rfl⟩
      · rcases hzc0 ev h with h | h | h <;> (subst h; trivial)
    · refine List.count_eq_zero.mpr ?_
      intro hmem
      rcases List.mem_cons.mp hmem with h | h
      · exact Event.noConfusion h
      · rcases hzc0 _ h with h | h | h <;> exact Event.noConfusion h
    · obtain ⟨d1, d2, d3, d4⟩ := deleteWrites_counts _ _ _ _ hzc0
      simp [List.count_cons, d2]
    · obtain ⟨d1, d2, d3, d4⟩ := deleteWrites_counts _ _ _ _ hzc0
      simp [List.count_cons, d3]
    · obtain ⟨d1, d2, d3, d4⟩ := deleteWrites_counts _ _ _ _ hzc0
      simp [List.count_cons, d4]
    · intro e' he hdisk
      simp only [downloadAndMergeWithFFmpeg, hnone]
      refine hcd ?_
      simp [hdisk]
    · intro hok
      simp only [downloadAndMergeWithFFmpeg, hnone] at hok
      simp at hok
  | some f =>
    rcases hrv : downloadVideoStream w (videoPath title sid) info useBest sid
        (setProgress st sid dlStreamVideoRec) with ⟨stV, resV⟩
    obtain ⟨zs1, ht1, hev1, hd1, hr1⟩ :=
      downloadVideoStream_facts w (videoPath title sid) info useBest sid
        (setProgress st sid dlStreamVideoRec) f dlStreamVideoRec hsel
        (mapGet_mapSet_self _ _ _) ⟨rfl, rfl⟩
    rw [hrv] at hev1 hd1 hr1
    dsimp only at hev1 hd1 hr1
    obtain ⟨c11, c12, c13, c14⟩ := tickWrites_counts _ _ _ ht1
    have hpt1 : zs1.filter isPipelineEvent = [] :=
      tickWrites_pipelineTrace _ _ _ ht1 (by simp)
    cases resV with
    | error e =>
      rw [← hr1] at hev1
      dsimp only at hev1
      simp only [List.append_nil] at hev1
      obtain ⟨hcm, ⟨zc, hce, hcz⟩, hcd⟩ := ffmpegCleanup_facts stV
        (videoPath title sid) (audioPath title sid) (mergedPath title sid)
      obtain ⟨dc1, dc2, dc3, dc4⟩ := deleteWrites_counts _ _ _ _ hcz
      refine ⟨Event.setP sid dlStreamVideoRec :: Event.selectVideo f.itag ::
          Event.createFile (videoPath title sid) :: (zs1 ++ zc),
          ?_, ?_, ?_, ?_, ?_, ?_, ?_, ?_⟩
      · simp only [downloadAndMergeWithFFmpeg, hrv]
        simp [hce, hev1, List.append_assoc]
      · intro ev hev
        rcases List.mem_cons.mp hev with h | hev
        · subst h; exact ⟨rfl, by simp [dlStreamVideoRec, statusEnum], rfl⟩
        rcases List.mem_cons.mp hev with h | hev
        · subst h; trivial
        rcases List.mem_cons.mp hev with h | hev
        · subst h; exact videoPath_names_sid _ _
        rcases List.mem_append.mp hev with h | h
        · obtain ⟨r, h1', h2', h3'⟩ := ht1 _ h
          subst h1'
          exact ⟨rfl, by simp [h2', statusEnum], h3'⟩
        · rcases hcz _ h with h | h | h <;> (subst h; trivial)
      · simp [List.count_cons, List.count_append, c11, dc1]
      · simp [List.count_cons, List.count_append, c12, dc2]
      · simp [List.count_cons, List.count_append, c13, dc3]
      · simp [List.count_cons, List.count_append, c14, dc4]
      · intro e' he hdisk
        simp only [downloadAndMergeWithFFmpeg, hrv]
        refine hcd ?_
        intro x hx
        rw [hd1] at hx
        rcases mem_addDisk _ _ _ hx with hx | hx
        · simp [hdisk] at hx
        · exact Or.inl hx
      · intro hok
        simp only [downloadAndMergeWithFFmpeg, hrv] at hok
        simp at hok
    | ok u1 =>
      rw [← hr1] at hev1
      dsimp only at hev1
      rcases hra : downloadAudioStream w (audioPath title sid) sid
          (setProgress stV sid dlStreamAudioRec) with ⟨stA, resA⟩
      obtain ⟨zs2, ht2, hev2, hd2, hr2⟩ :=
        downloadAudioStream_facts w (audioPath title sid) sid
          (setProgress stV sid dlStreamAudioRec) dlStreamAudioRec
          (mapGet_mapSet_self _ _ _) ⟨rfl, rfl⟩
      rw [hra] at hev2 hd2 hr2
      dsimp only at hev2 hd2 hr2
      obtain ⟨c21, c22, c23, c24⟩ := tickWrites_counts _ _ _ ht2
      have hpt2 : zs2.filter isPipelineEvent = [] :=
        tickWrites_pipelineTrace _ _ _ ht2 (by simp)
      cases resA with
      | error e =>
        rw [← hr2] at hev2
        dsimp only at hev2
        simp only [List.append_nil] at hev2
        obtain ⟨hcm, ⟨zc, hce, hcz⟩, hcd⟩ := ffmpegCleanup_facts stA
          (videoPath title sid) (audioPath title sid) (mergedPath title sid)
        obtain ⟨dc1, dc2, dc3, dc4⟩ := deleteWrites_counts _ _ _ _ hcz
        refine ⟨Event.setP sid dlStreamVideoRec :: Event.selectVideo f.itag ::
            Event.createFile (videoPath title sid) :: (zs1 ++
              (Event.streamVideoDone :: Event.setP sid dlStreamAudioRec ::
                Event.createFile (audioPath title sid) :: (zs2 ++ zc))),
            ?_, ?_, ?_, ?_, ?_, ?_, ?_, ?_⟩
        · simp only [downloadAndMergeWithFFmpeg, hrv, hra]
          simp [hce, hev2, hev1, List.append_assoc]
        · intro ev hev
          rcases List.mem_cons.mp hev with h | hev
          · subst h; exact ⟨rfl, by simp [dlStreamVideoRec, statusEnum], rfl⟩
          rcases List.mem_cons.mp hev with h | hev
          · subst h; trivial
          rcases List.mem_cons.mp hev with h | hev
          · subst h; exact videoPath_names_sid _ _
          rcases List.mem_append.mp hev with h | hev
          · obtain ⟨r, h1', h2', h3'⟩ := ht1 _ h
            subst h1'
            exact ⟨rfl, by simp [h2', statusEnum], h3'⟩
          rcases List.mem_cons.mp hev with h | hev
          · subst h; trivial
          rcases List.mem_cons.mp hev with h | hev
          · subst h; exact ⟨rfl, by simp [dlStreamAudioRec, statusEnum], rfl⟩
          rcases List.mem_cons.mp hev with h | hev
          · subst h; exact audioPath_names_sid _ _
          rcases List.mem_append.mp hev with h | h
          · obtain ⟨r, h1', h2', h3'⟩ := ht2 _ h
            subst h1'
            exact ⟨rfl, by simp [h2', statusEnum], h3'⟩
          · rcases hcz _ h with h | h | h <;> (subst h; trivial)
        · simp [List.count_cons, List.count_append, c11, c21, dc1]
        · simp [List.count_cons, List.count_append, c12, c22, dc2]
        · simp [List.count_cons, List.count_append, c13, c23, dc3]
        · simp [List.count_cons, List.count_append, c14, c24, dc4]
        · intro e' he hdisk
          simp only [downloadAndMergeWithFFmpeg, hrv, hra]
          refine hcd ?_
          intro x hx
          rw [hd2] at hx
          rcases mem_addDisk _ _ _ hx with hx | hx
          · rw [show (setProgress stV sid dlStreamAudioRec).disk = stV.disk from rfl,
              hd1] at hx
            rcases mem_addDisk _ _ _ hx with hx | hx
            · simp [hdisk] at hx
            · exact Or.inl hx
          · exact Or.inr (Or.inl hx)
        · intro hok
          simp only [downloadAndMergeWithFFmpeg, hrv, hra] at hok
          simp at hok
      | ok u2 =>
        rw [← hr2] at hev2
        dsimp only at hev2
        rcases hrm : mergeWithFFmpeg w (mergedPath title sid) sid
            (setProgress stA sid mergingRec) with ⟨stM, resM⟩
        obtain ⟨zs3, ht3, hev3, hd3, hr3⟩ :=
          mergeWithFFmpeg_facts w (mergedPath title sid) sid
            (setProgress stA sid mergingRec) mergingRec
            (mapGet_mapSet_self _ _ _) ⟨rfl, rfl⟩
        rw [hrm] at hev3 hd3 hr3
        dsimp only at hev3 hd3 hr3
        obtain ⟨c31, c32, c33, c34⟩ := tickWrites_counts _ _ _ ht3
        have hpt3 : zs3.filter isPipelineEvent = [] :=
          tickWrites_pipelineTrace _ _ _ ht3 (by simp)
        cases resM with
        | error e =>
          rw [← hr3] at hev3
          dsimp only at hev3
          simp only [List.append_nil] at hev3
          obtain ⟨hcm, ⟨zc, hce, hcz⟩, hcd⟩ := ffmpegCleanup_facts stM
            (videoPath title sid) (audioPath title sid) (mergedPath title sid)
          obtain ⟨dc1, dc2, dc3, dc4⟩ := deleteWrites_counts _ _ _ _ hcz
          refine ⟨Event.setP sid dlStreamVideoRec :: Event.selectVideo f.itag ::
              Event.createFile (videoPath title sid) :: (zs1 ++
                (Event.streamVideoDone :: Event.setP sid dlStreamAudioRec ::
                  Event.createFile (audioPath title sid) :: (zs2 ++
                    (Event.streamAudioDone :: Event.setP sid mergingRec ::
                      Event.createFile (mergedPath title sid) :: (zs3 ++ zc))))),
              ?_, ?_, ?_, ?_, ?_, ?_, ?_, ?_⟩
          · simp only [downloadAndMergeWithFFmpeg, hrv, hra, hrm]
            simp [hce, hev3, hev2, hev1, List.append_assoc]
          · intro ev hev
            rcases List.mem_cons.mp hev with h | hev
            · subst h; exact ⟨rfl, by simp [dlStreamVideoRec, statusEnum], rfl⟩
            rcases List.mem_cons.mp hev with h | hev
            · subst h; trivial
            rcases List.mem_cons.mp hev with h | hev
            · subst h; exact videoPath_names_sid _ _
            rcases List.mem_append.mp hev with h | hev
            · obtain ⟨r, h1', h2', h3'⟩ := ht1 _ h
              subst h1'
              exact ⟨rfl, by simp [h2', statusEnum], h3'⟩
            rcases List.mem_cons.mp hev with h | hev
            · subst h; trivial
            rcases List.mem_cons.mp hev with h | hev
            · subst h; exact ⟨rfl, by simp [dlStreamAudioRec, statusEnum], rfl⟩
            rcases List.mem_cons.mp hev with h | hev
            · subst h; exact audioPath_names_sid _ _
            rcases List.mem_append.mp hev with h | hev
            · obtain ⟨r, h1', h2', h3'⟩ := ht2 _ h
              subst h1'
              exact ⟨rfl, by simp [h2', statusEnum], h3'⟩
            rcases List.mem_cons.mp hev with h | hev
            · subst h; trivial
            rcases List.mem_cons.mp hev with h | hev
            · subst h; exact ⟨rfl, by simp [mergingRec, statusEnum], rfl⟩
            rcases List.mem_cons.mp hev with h | hev
            · subst h; exact mergedPath_names_sid _ _
            rcases List.mem_append.mp hev with h | h
            · obtain ⟨r, h1', h2', h3'⟩ := ht3 _ h
              subst h1'
              exact ⟨rfl, by simp [h2', statusEnum], h3'⟩
            · rcases hcz _ h with h | h | h <;> (subst h; trivial)
          · simp [List.count_cons, List.count_append, c11, c21, c31, dc1]
          · simp [List.count_cons, List.count_append, c12, c22, c32, dc2]
          · simp [List.count_cons, List.count_append, c13, c23, c33, dc3]
          · simp [List.count_cons, List.count_append, c14, c24, c34, dc4]
          · intro e' he hdisk
            simp only [downloadAndMergeWithFFmpeg, hrv, hra, hrm]
            refine hcd ?_
            intro x hx
            rw [hd3] at hx
            rcases mem_addDisk _ _ _ hx with hx | hx
            · rw [show (setProgress stA sid mergingRec).disk = stA.disk from rfl,
                hd2] at hx
              rcases mem_addDisk _ _ _ hx with hx | hx
              · rw [show (setProgress stV sid dlStreamAudioRec).disk = stV.disk from rfl,
                  hd1] at hx
                rcases mem_addDisk _ _ _ hx with hx | hx
                · simp [hdisk] at hx
                · exact Or.inl hx
              · exact Or.inr (Or.inl hx)
            · exact Or.inr (Or.inr hx)
          · intro hok
            simp only [downloadAndMergeWithFFmpeg, hrv, hra, hrm] at hok
            simp at hok
        | ok u3 =>
          rw [← hr3] at hev3
          dsimp only at hev3
          refine ⟨Event.setP sid dlStreamVideoRec :: Event.selectVideo f.itag ::
              Event.createFile (videoPath title sid) :: (zs1 ++
                (Event.streamVideoDone :: Event.setP sid dlStreamAudioRec ::
                  Event.createFile (audioPath title sid) :: (zs2 ++
                    (Event.streamAudioDone :: Event.setP sid mergingRec ::
                      Event.createFile (mergedPath title sid) :: (zs3 ++
                        [Event.mergeDone, Event.deleteFile (videoPath title sid),
                         Event.deleteFile (audioPath title sid),
                         Event.setP sid (mergedCompletedRec title sid)]))))),
              ?_, ?_, ?_, ?_, ?_, ?_, ?_, ?_⟩
          · simp only [downloadAndMergeWithFFmpeg, hrv, hra, hrm]
            simp [hev3, hev2, hev1, List.append_assoc]
          · intro ev hev
            rcases List.mem_cons.mp hev with h | hev
            · subst h; exact ⟨rfl, by simp [dlStreamVideoRec, statusEnum], rfl⟩
            rcases List.mem_cons.mp hev with h | hev
            · subst h; trivial
            rcases List.mem_cons.mp hev with h | hev
            · subst h; exact videoPath_names_sid _ _
            rcases List.mem_append.mp hev with h | hev
            · obtain ⟨r, h1', h2', h3'⟩ := ht1 _ h
              subst h1'
              exact ⟨rfl, by simp [h2', statusEnum], h3'⟩
            rcases List.mem_cons.mp hev with h | hev
            · subst h; trivial
            rcases List.mem_cons.mp hev with h | hev
            · subst h; exact ⟨rfl, by simp [dlStreamAudioRec, statusEnum], rfl⟩
            rcases List.mem_cons.mp hev with h | hev
            · subst h; exact audioPath_names_sid _ _
            rcases List.mem_append.mp hev with h | hev
            · obtain ⟨r, h1', h2', h3'⟩ := ht2 _ h
              subst h1'
              exact ⟨rfl, by simp [h2', statusEnum], h3'⟩
            rcases List.mem_cons.mp hev with h | hev
            · subst h; trivial
            rcases List.mem_cons.mp hev with h | hev
            · subst h; exact ⟨rfl, by simp [mergingRec, statusEnum], rfl⟩
            rcases List.mem_cons.mp hev with h | hev
            · subst h; exact mergedPath_names_sid _ _
            rcases List.mem_append.mp hev with h | h
            · obtain ⟨r, h1', h2', h3'⟩ := ht3 _ h
              subst h1'
              exact ⟨rfl, by simp [h2', statusEnum], h3'⟩
            · simp only [List.mem_cons, List.not_mem_nil, or_false] at h
              rcases h with h | h | h | h
              · subst h; trivial
              · subst h; trivial
              · subst h; trivial
              · subst h
                exact ⟨rfl, by simp [mergedCompletedRec, statusEnum], rfl⟩
          · simp [List.count_cons, List.count_append, c11, c21, c31]
          · simp [List.count_cons, List.count_append, c12, c22, c32]
          · simp [List.count_cons, List.count_append, c13, c23, c33]
          · simp [List.count_cons, List.count_append, c14, c24, c34]
          · intro e' he hdisk
            simp only [downloadAndMergeWithFFmpeg, hrv, hra, hrm] at he
            simp at he
          · intro hok
            refine ⟨⟨f, rfl, ?_⟩, ?_⟩
            · simp only [pipelineTrace, List.filter_append, List.filter_cons]
              simp [isPipelineEvent, hpt1, hpt2, hpt3, dlStreamVideoRec,
                dlStreamAudioRec, mergingRec, mergedCompletedRec, pipelineTrace]
            · simp only [downloadAndMergeWithFFmpeg, hrv, hra, hrm]
              exact mapGet_mapSet_self _ _ _

set_option maxHeartbeats 1000000 in
theorem downloadHandler_facts (w : World) (req : Request) (sid : String) (st0 : St)
    (hval : w.validate req.url = true) :
    ∃ zs,
      (downloadHandler w req sid st0).st.events =
        st0.events ++ [Event.setP sid initRec, Event.respond 200] ++ zs ∧
      (∀ e ∈ zs, sessionEvent sid e) ∧
      zs.count Event.probe ≤ 1 ∧
      zs.count Event.streamVideoDone ≤ 1 ∧
      zs.count Event.streamAudioDone ≤ 1 ∧
      zs.count Event.mergeDone ≤ 1 ∧
      (∀ e, (downloadHandler w req sid st0).pipeline = some (.error e) →
        mapGet (downloadHandler w req sid st0).st.map sid = some (errorRec e)) ∧
      ((req.itag = some "ffmpeg-best" ∨ req.itag = some "ffmpeg-medium") →
        req.format ≠ some "mp3" → st0.disk = [] →
        (∃ e, (downloadHandler w req sid st0).pipeline = some (.error e)) →
        (downloadHandler w req sid st0).st.disk = []) := by
  cases hinfo : w.infoResult with
  | error e0 =>
    refine ⟨[Event.setP sid (errorRec e0)], ?_, ?_, ?_, ?_, ?_, ?_, ?_, ?_⟩
    · simp [downloadHandler, hval, hinfo, List.append_assoc]
    · intro e he
      simp at he
      subst he
      exact ⟨rfl, by simp [errorRec, statusEnum], rfl⟩
    · simp
    · simp
    · simp
    · simp
    · intro e heq
      simp [downloadHandler, hval, hinfo] at heq ⊢
      subst heq
      exact mapGet_mapSet_self _ _ _
    · intro _ _ hdisk _
      simp [downloadHandler, hval, hinfo, hdisk]
  | ok info =>
    by_cases hfmt : req.format = some "mp3"
    · rcases hrun : downloadAudio w (sanitizeTitle info.title) sid
          (logEvent (logEvent (setProgress st0 sid initRec) (Event.respond 200)) Event.probe)
        with ⟨stA, resA⟩
      obtain ⟨zsA, hta, heva, hda, hra⟩ :=
        downloadAudio_facts w (sanitizeTitle info.title) sid
          (logEvent (logEvent (setProgress st0 sid initRec) (Event.respond 200)) Event.probe)
      rw [hrun] at heva hda hra
      dsimp only at heva hda hra
      obtain ⟨ca1, ca2, ca3, ca4⟩ := tickWrites_counts _ _ _ hta
      cases resA with
      | error e =>
        rw [← hra] at heva
        dsimp only at heva
        simp only [List.append_nil] at heva
        refine ⟨Event.probe :: Event.setP sid dlAudioRec ::
            Event.createFile (mp3Path (sanitizeTitle info.title) sid) :: zsA ++
            [Event.setP sid (errorRec e)], ?_, ?_, ?_, ?_, ?_, ?_, ?_, ?_⟩
        · simp only [downloadHandler, hval, hinfo, hfmt, hrun]
          simp [heva, List.append_assoc]
        · intro ev hev
          rcases List.mem_cons.mp hev with h | hev
          · subst h; trivial
          rcases List.mem_cons.mp hev with h | hev
          · subst h; exact ⟨rfl, by simp [dlAudioRec, statusEnum], rfl⟩
          rcases List.mem_cons.mp hev with h | hev
          · subst h; exact mp3Path_names_sid _ _
          rcases List.mem_append.mp hev with h | h
          · obtain ⟨r, h1, h2, h3⟩ := hta _ h
            subst h1
            exact ⟨rfl, by simp [h2, statusEnum], h3⟩
          · simp at h
            subst h
            exact ⟨rfl, by simp [errorRec, statusEnum], rfl⟩
        · simp [List.count_cons, List.count_append, ca1]
        · simp [List.count_cons, List.count_append, ca2]
        · simp [List.count_cons, List.count_append, ca3]
        · simp [List.count_cons, List.count_append, ca4]
        · intro e' heq
          simp only [downloadHandler, hval, hinfo, hfmt, hrun] at heq ⊢
          simp at heq
          subst heq
          exact mapGet_mapSet_self _ _ _
        · intro _ hne _ _
          exact absurd hfmt hne
      | ok u =>
        rw [← hra] at heva
        dsimp only at heva
        refine ⟨Event.probe :: Event.setP sid dlAudioRec ::
            Event.createFile (mp3Path (sanitizeTitle info.title) sid) :: zsA ++
            [Event.setP sid (mp3CompletedRec (sanitizeTitle info.title) sid)],
            ?_, ?_, ?_, ?_, ?_, ?_, ?_, ?_⟩
        · simp only [downloadHandler, hval, hinfo, hfmt, hrun]
          simp [heva, List.append_assoc]
        · intro ev hev
          rcases List.mem_cons.mp hev with h | hev
          · subst h; trivial
          rcases List.mem_cons.mp hev with h | hev
          · subst h; exact ⟨rfl, by simp [dlAudioRec, statusEnum], rfl⟩
          rcases List.mem_cons.mp hev with h | hev
          · subst h; exact mp3Path_names_sid _ _
          rcases List.mem_append.mp hev with h | h
          · obtain ⟨r, h1, h2, h3⟩ := hta _ h
            subst h1
            exact ⟨rfl, by simp [h2, statusEnum], h3⟩
          · simp at h
            subst h
            exact ⟨rfl, by simp [mp3CompletedRec, statusEnum], rfl⟩
        · simp [List.count_cons, List.count_append, ca1]
        · simp [List.count_cons, List.count_append, ca2]
        · simp [List.count_cons, List.count_append, ca3]
        · simp [List.count_cons, List.count_append, ca4]
        · intro e' heq
          simp only [downloadHandler, hval, hinfo, hfmt, hrun] at heq
          simp at heq
        · intro _ hne _ _
          exact absurd hfmt hne
    · by_cases h1 : req.itag = some "ffmpeg-best"
      ·
        rcases hrf : downloadAndMergeWithFFmpeg w info (sanitizeTitle info.title) sid
            true (logEvent (logEvent (setProgress st0 sid initRec) (Event.respond 200))
              Event.probe) with ⟨stF, resF⟩
        obtain ⟨zsF, hevF, hsF, hc0, hcv, hca, hcmm, hdiskF, hokF⟩ :=
          ffmpeg_facts w info (sanitizeTitle info.title) sid true
            (logEvent (logEvent (setProgress st0 sid initRec) (Event.respond 200))
              Event.probe)
        rw [hrf] at hevF hdiskF hokF
        dsimp only at hevF hdiskF hokF
        cases resF with
        | error e =>
          refine ⟨Event.probe :: (zsF ++ [Event.setP sid (errorRec e)]),
              ?_, ?_, ?_, ?_, ?_, ?_, ?_, ?_⟩
          · simp only [downloadHandler, hval, hinfo]
            simp [hfmt, h1, hrf, hevF, List.append_assoc]
          · intro ev hev
            rcases List.mem_cons.mp hev with h | hev
            · subst h; trivial
            rcases List.mem_append.mp hev with h | h
            · exact hsF _ h
            · simp at h
              subst h
              exact ⟨rfl, by simp [errorRec, statusEnum], rfl⟩
          · simp [List.count_cons, List.count_append, hc0]
          · simp only [List.count_cons, List.count_append]
            simp
            omega
          · simp only [List.count_cons, List.count_append]
            simp
            omega
          · simp only [List.count_cons, List.count_append]
            simp
            omega
          · intro e' heq
            simp only [downloadHandler, hval, hinfo] at heq ⊢
            simp [hfmt, h1, hrf] at heq ⊢
            subst heq
            exact mapGet_mapSet_self _ _ _
          · intro _ _ hdisk0 _
            simp only [downloadHandler, hval, hinfo]
            simp [hfmt, h1, hrf]
            refine hdiskF e rfl ?_
            simp [hdisk0]
        | ok u =>
          refine ⟨Event.probe :: zsF, ?_, ?_, ?_, ?_, ?_, ?_, ?_, ?_⟩
          · simp only [downloadHandler, hval, hinfo]
            simp [hfmt, h1, hrf, hevF, List.append_assoc]
          · intro ev hev
            rcases List.mem_cons.mp hev with h | hev
            · subst h; trivial
            · exact hsF _ hev
          · simp [List.count_cons, hc0]
          · simp only [List.count_cons]
            simp
            omega
          · simp only [List.count_cons]
            simp
            omega
          · simp only [List.count_cons]
            simp
            omega
          · intro e' heq
            simp only [downloadHandler, hval, hinfo] at heq
            simp [hfmt, h1, hrf] at heq
          · intro _ _ _ hex
            rcases hex with ⟨e', he'⟩
            simp only [downloadHandler, hval, hinfo] at he'
            simp [hfmt, h1, hrf] at he'
      · by_cases h2 : req.itag = some "ffmpeg-medium"
        ·
          rcases hrf : downloadAndMergeWithFFmpeg w info (sanitizeTitle info.title) sid
              false (logEvent (logEvent (setProgress st0 sid initRec) (Event.respond 200))
                Event.probe) with ⟨stF, resF⟩
          obtain ⟨zsF, hevF, hsF, hc0, hcv, hca, hcmm, hdiskF, hokF⟩ :=
            ffmpeg_facts w info (sanitizeTitle info.title) sid false
              (logEvent (logEvent (setProgress st0 sid initRec) (Event.respond 200))
                Event.probe)
          rw [hrf] at hevF hdiskF hokF
          dsimp only at hevF hdiskF hokF
          cases resF with
          | error e =>
            refine ⟨Event.probe :: (zsF ++ [Event.setP sid (errorRec e)]),
                ?_, ?_, ?_, ?_, ?_, ?_, ?_, ?_⟩
            · simp only [downloadHandler, hval, hinfo]
              simp [hfmt, h1, h2, hrf, hevF, List.append_assoc]
            · intro ev hev
              rcases List.mem_cons.mp hev with h | hev
              · subst h; trivial
              rcases List.mem_append.mp hev with h | h
              · exact hsF _ h
              · simp at h
                subst h
                exact ⟨rfl, by simp [errorRec, statusEnum], rfl⟩
            · simp [List.count_cons, List.count_append, hc0]
            · simp only [List.count_cons, List.count_append]
              simp
              omega
            · simp only [List.count_cons, List.count_append]
              simp
              omega
            · simp only [List.count_cons, List.count_append]
              simp
              omega
            · intro e' heq
              simp only [downloadHandler, hval, hinfo] at heq ⊢
              simp [hfmt, h1, h2, hrf] at heq ⊢
              subst heq
              exact mapGet_mapSet_self _ _ _
            · intro _ _ hdisk0 _
              simp only [downloadHandler, hval, hinfo]
              simp [hfmt, h1, h2, hrf]
              refine hdiskF e rfl ?_
              simp [hdisk0]
          | ok u =>
            refine ⟨Event.probe :: zsF, ?_, ?_, ?_, ?_, ?_, ?_, ?_, ?_⟩
            · simp only [downloadHandler, hval, hinfo]
              simp [hfmt, h1, h2, hrf, hevF, List.append_assoc]
            · intro ev hev
              rcases List.mem_cons.mp hev with h | hev
              · subst h; trivial
              · exact hsF _ hev
            · simp [List.count_cons, hc0]
            · simp only [List.count_cons]
              simp
              omega
            · simp only [List.count_cons]
              simp
              omega
            · simp only [List.count_cons]
              simp
              omega
            · intro e' heq
              simp only [downloadHandler, hval, hinfo] at heq
              simp [hfmt, h1, h2, hrf] at heq
            · intro _ _ _ hex
              rcases hex with ⟨e', he'⟩
              simp only [downloadHandler, hval, hinfo] at he'
              simp [hfmt, h1, h2, hrf] at he'
        ·
          rcases hrun : downloadRegularVideo w (sanitizeTitle info.title) sid req.itag info
              (logEvent (logEvent (setProgress st0 sid initRec) (Event.respond 200))
                Event.probe) with ⟨stR, resR⟩
          obtain ⟨zsR, htr, hevr, hdr, hrr⟩ :=
            downloadRegularVideo_facts w (sanitizeTitle info.title) sid req.itag info
              (logEvent (logEvent (setProgress st0 sid initRec) (Event.respond 200))
                Event.probe)
          rw [hrun] at hevr hdr hrr
          dsimp only at hevr hdr hrr
          obtain ⟨cr1, cr2, cr3, cr4⟩ := tickWrites_counts _ _ _ htr
          cases resR with
          | error e =>
            rw [← hrr] at hevr
            dsimp only at hevr
            simp only [List.append_nil] at hevr
            refine ⟨Event.probe :: Event.setP sid dlVideoRec ::
                Event.createFile (mp4Path (sanitizeTitle info.title) sid) :: (zsR ++
                [Event.setP sid (errorRec e)]), ?_, ?_, ?_, ?_, ?_, ?_, ?_, ?_⟩
            · simp only [downloadHandler, hval, hinfo]
              simp [hfmt, h1, h2, hrun, hevr, List.append_assoc]
            · intro ev hev
              rcases List.mem_cons.mp hev with h | hev
              · subst h; trivial
              rcases List.mem_cons.mp hev with h | hev
              · subst h; exact ⟨rfl, by simp [dlVideoRec, statusEnum], rfl⟩
              rcases List.mem_cons.mp hev with h | hev
              · subst h; exact mp4Path_names_sid _ _
              rcases List.mem_append.mp hev with h | h
              · obtain ⟨r, hh1, hh2, hh3⟩ := htr _ h
                subst hh1
                exact ⟨rfl, by simp [hh2, statusEnum], hh3⟩
              · simp at h
                subst h
                exact ⟨rfl, by simp [errorRec, statusEnum], rfl⟩
            · simp [List.count_cons, List.count_append, cr1]
            · simp [List.count_cons, List.count_append, cr2]
            · simp [List.count_cons, List.count_append, cr3]
            · simp [List.count_cons, List.count_append, cr4]
            · intro e' heq
              simp only [downloadHandler, hval, hinfo] at heq ⊢
              simp [hfmt, h1, h2, hrun] at heq ⊢
              subst heq
              exact mapGet_mapSet_self _ _ _
            · intro hpre _ _ _
              rcases hpre with hpre | hpre
              · exact absurd hpre h1
              · exact absurd hpre h2
          | ok u =>
            rw [← hrr] at hevr
            dsimp only at hevr
            refine ⟨Event.probe :: Event.setP sid dlVideoRec ::
                Event.createFile (mp4Path (sanitizeTitle info.title) sid) :: (zsR ++
                [Event.setP sid (mp4CompletedRec (sanitizeTitle info.title) sid)]),
                ?_, ?_, ?_, ?_, ?_, ?_, ?_, ?_⟩
            · simp only [downloadHandler, hval, hinfo]
              simp [hfmt, h1, h2, hrun, hevr, List.append_assoc]
            · intro ev hev
              rcases List.mem_cons.mp hev with h | hev
              · subst h; trivial
              rcases List.mem_cons.mp hev with h | hev
              · subst h; exact ⟨rfl, by simp [dlVideoRec, statusEnum], rfl⟩
              rcases List.mem_cons.mp hev with h | hev
              · subst h; exact mp4Path_names_sid _ _
              rcases List.mem_append.mp hev with h | h
              · obtain ⟨r, hh1, hh2, hh3⟩ := htr _ h
                subst hh1
                exact ⟨rfl, by simp [hh2, statusEnum], hh3⟩
              · simp at h
                subst h
                exact ⟨rfl, by simp [mp4CompletedRec, statusEnum], rfl⟩
            · simp [List.count_cons, List.count_append, cr1]
            · simp [List.count_cons, List.count_append, cr2]
            · simp [List.count_cons, List.count_append, cr3]
            · simp [List.count_cons, List.count_append, cr4]
            · intro e' heq
              simp only [downloadHandler, hval, hinfo] at heq
              simp [hfmt, h1, h2, hrun] at heq
            · intro hpre _ _ _
              rcases hpre with hpre | hpre
              · exact absurd hpre h1
              · exact absurd hpre h2

/-- A filtered-out path is no longer reported present. -/
theorem contains_filter_self (l : List String) (p : String) :
    ((l.filter (fun x => x ≠ p)).contains p) = false := by
  rw [Bool.eq_false_iff]
  intro hc
  have hm : p ∈ l.filter (fun x => x ≠ p) := List.elem_iff.mp hc
  have h2 := (List.mem_filter.mp hm).2
  simp at h2

/-- When a video-only format exists and all three external stages succeed,
the merge pipeline reports success. -/
theorem ffmpeg_result_ok (w : World) (info : VideoInfo) (title sid : String)
    (useBest : Bool) (st : St) (f : Format)
    (hsel : selectedStreamFormat info.formats useBest = some f)
    (hvs : w.videoStream.result = .ok ()) (has : w.audioStream.result = .ok ())
    (hm : w.merge.result = .ok ()) :
    (downloadAndMergeWithFFmpeg w info title sid useBest st).2 = .ok () := by
  rcases hrv : downloadVideoStream w (videoPath title sid) info useBest sid
      (setProgress st sid dlStreamVideoRec) with ⟨stV, resV⟩
  obtain ⟨-, -, -, -, hr1⟩ :=
    downloadVideoStream_facts w (videoPath title sid) info useBest sid
      (setProgress st sid dlStreamVideoRec) f dlStreamVideoRec hsel
      (mapGet_mapSet_self _ _ _) ⟨rfl, rfl⟩
  rw [hrv, hvs] at hr1
  dsimp only at hr1
  subst hr1
  rcases hra : downloadAudioStream w (audioPath title sid) sid
      (setProgress stV sid dlStreamAudioRec) with ⟨stA, resA⟩
  obtain ⟨-, -, -, -, hr2⟩ :=
    downloadAudioStream_facts w (audioPath title sid) sid
      (setProgress stV sid dlStreamAudioRec) dlStreamAudioRec
      (mapGet_mapSet_self _ _ _) ⟨rfl, rfl⟩
  rw [hra, has] at hr2
  dsimp only at hr2
  subst hr2
  rcases hrm : mergeWithFFmpeg w (mergedPath title sid) sid
      (setProgress stA sid mergingRec) with ⟨stM, resM⟩
  obtain ⟨-, -, -, -, hr3⟩ :=
    mergeWithFFmpeg_facts w (mergedPath title sid) sid
      (setProgress stA sid mergingRec) mergingRec
      (mapGet_mapSet_self _ _ _) ⟨rfl, rfl⟩
  rw [hrm, hm] at hr3
  dsimp only at hr3
  subst hr3
  simp only [downloadAndMergeWithFFmpeg, hrv, hra, hrm]

/-- An accepted download request is always answered 200 with the fresh
session id, whatever the pipeline later does. -/
theorem downloadHandler_response (w : World) (req : Request) (sid : String) (st0 : St)
    (hval : w.validate req.url = true) :
    (downloadHandler w req sid st0).code = 200 ∧
    (downloadHandler w req sid st0).body = .started sid := by
  unfold downloadHandler
  rw [hval]
  simp only [Bool.not_true, Bool.false_eq_true, if_false]
  cases hinfo : w.infoResult with
  | error e => simp
  | ok info =>
    refine ⟨?_, ?_⟩ <;> (split <;> first | rfl | (split <;> rfl))

unseal List.merge List.mergeSort in
/-- C1 counterexample: on a concrete accepted `ffmpeg-best` request where
every stage succeeds, the pipeline-stage trace deletes the two intermediate
stream files BEFORE the completed-mark write, so the claimed order
(probe, select, video, audio, merge, mark completed, delete intermediates)
does not hold. -/
theorem ffmpeg_pipeline_order_cex :
    pipelineTrace (downloadHandler sampleWorld ffmpegReq "S" emptySt).st.events =
      [Event.probe, Event.selectVideo 137, Event.streamVideoDone, Event.streamAudioDone,
       Event.mergeDone, Event.deleteFile (videoPath "T" "S"),
       Event.deleteFile (audioPath "T" "S"),
       Event.setP "S" (mergedCompletedRec "T" "S")] ∧
    pipelineTrace (downloadHandler sampleWorld ffmpegReq "S" emptySt).st.events ≠
      [Event.probe, Event.selectVideo 137, Event.streamVideoDone, Event.streamAudioDone,
       Event.mergeDone, Event.setP "S" (mergedCompletedRec "T" "S"),
       Event.deleteFile (videoPath "T" "S"), Event.deleteFile (audioPath "T" "S")] := by
  constructor
  · decide
  · decide

/-- C1 (amended): for every accepted FFmpeg-preset download whose external
stages all succeed, the stages run strictly in sequence in this order:
probe, select a video-only format, download the video stream, download the
audio stream, merge, DELETE the two intermediate stream files, and only
then mark the session completed with the output path.  (Sequencing is by
construction of the model: each stage's state feeds the next, as the
source awaits each stage.) -/
theorem ffmpeg_pipeline_order (w : World) (req : Request) (sid : String) (st0 : St)
    (info : VideoInfo) (f : Format)
    (hval : w.validate req.url = true)
    (hinfo : w.infoResult = .ok info)
    (hfmt : req.format ≠ some "mp3")
    (hpre : req.itag = some "ffmpeg-best" ∨ req.itag = some "ffmpeg-medium")
    (hsel : selectedStreamFormat info.formats
        (decide (req.itag = some "ffmpeg-best")) = some f)
    (hvs : w.videoStream.result = .ok ()) (has : w.audioStream.result = .ok ())
    (hmr : w.merge.result = .ok ())
    (hev : st0.events = []) :
    pipelineTrace (downloadHandler w req sid st0).st.events =
      [Event.probe, Event.selectVideo f.itag, Event.streamVideoDone,
       Event.streamAudioDone, Event.mergeDone,
       Event.deleteFile (videoPath (sanitizeTitle info.title) sid),
       Event.deleteFile (audioPath (sanitizeTitle info.title) sid),
       Event.setP sid (mergedCompletedRec (sanitizeTitle info.title) sid)] ∧
    mapGet (downloadHandler w req sid st0).st.map sid =
      some (mergedCompletedRec (sanitizeTitle info.title) sid) ∧
    (downloadHandler w req sid st0).pipeline = some (.ok ()) := by
  rcases hrf : downloadAndMergeWithFFmpeg w info (sanitizeTitle info.title) sid
      (decide (req.itag = some "ffmpeg-best"))
      (logEvent (logEvent (setProgress st0 sid initRec) (Event.respond 200)) Event.probe)
    with ⟨stF, resF⟩
  obtain ⟨zsF, hevF, -, -, -, -, -, -, hokF⟩ :=
    ffmpeg_facts w info (sanitizeTitle info.title) sid
      (decide (req.itag = some "ffmpeg-best"))
      (logEvent (logEvent (setProgress st0 sid initRec) (Event.respond 200)) Event.probe)
  have hres : resF = .ok () := by
    have hr := ffmpeg_result_ok w info (sanitizeTitle info.title) sid
      (decide (req.itag = some "ffmpeg-best"))
      (logEvent (logEvent (setProgress st0 sid initRec) (Event.respond 200)) Event.probe)
      f hsel hvs has hmr
    rw [hrf] at hr
    exact hr
  subst hres
  rw [hrf] at hevF hokF
  dsimp only at hevF hokF
  obtain ⟨⟨f2, hsel2, htr⟩, hmap⟩ := hokF rfl
  have hff : f2 = f := by
    rw [hsel] at hsel2
    exact (Option.some.inj hsel2).symm
  rw [hff] at htr
  have htr2 : zsF.filter isPipelineEvent =
      [Event.selectVideo f.itag, Event.streamVideoDone, Event.streamAudioDone,
       Event.mergeDone, Event.deleteFile (videoPath (sanitizeTitle info.title) sid),
       Event.deleteFile (audioPath (sanitizeTitle info.title) sid),
       Event.setP sid (mergedCompletedRec (sanitizeTitle info.title) sid)] := htr
  have hcond : (decide (req.itag = some "ffmpeg-best") ||
      decide (req.itag = some "ffmpeg-medium")) = true := by
    rcases hpre with h | h <;> simp [h]
  refine ⟨?_, ?_, ?_⟩
  · simp only [downloadHandler, hval, hinfo]
    simp [hfmt, hcond, hrf]
    rw [hevF]
    simp [pipelineTrace, List.filter_append, htr2, isPipelineEvent, initRec, hev]
  · simp only [downloadHandler, hval, hinfo]
    simp [hfmt, hcond, hrf]
    exact hmap
  · simp only [downloadHandler, hval, hinfo]
    simp [hfmt, hcond, hrf]

unseal List.merge List.mergeSort in
theorem ffmpeg_pipeline_order_witness :
    mapGet (downloadHandler sampleWorld ffmpegReq "S" emptySt).st.map "S" =
      some (mergedCompletedRec "T" "S") :=
  (ffmpeg_pipeline_order sampleWorld ffmpegReq "S" emptySt sampleInfo sampleVideoOnly
    rfl rfl (by decide) (Or.inl rfl) (by decide) rfl rfl rfl rfl).2.1

/-- C2: whenever the pipeline of an accepted download fails at any stage,
the catch block stores exactly the error record (status `error`, progress
0, the error message) for the session, and no stage runs twice (each
stage-completion event occurs at most once in the whole trace). -/
theorem pipeline_error_caught (w : World) (req : Request) (sid : String) (st0 : St)
    (e : String) (hev : st0.events = [])
    (herr : (downloadHandler w req sid st0).pipeline = some (.error e)) :
    mapGet (downloadHandler w req sid st0).st.map sid = some (errorRec e) ∧
    (downloadHandler w req sid st0).st.events.count Event.probe ≤ 1 ∧
    (downloadHandler w req sid st0).st.events.count Event.streamVideoDone ≤ 1 ∧
    (downloadHandler w req sid st0).st.events.count Event.streamAudioDone ≤ 1 ∧
    (downloadHandler w req sid st0).st.events.count Event.mergeDone ≤ 1 := by
  by_cases hval : w.validate req.url = true
  · obtain ⟨zs, hevs, hsess, c1, c2, c3, c4, herrmap, -⟩ :=
      downloadHandler_facts w req sid st0 hval
    refine ⟨herrmap e herr, ?_, ?_, ?_, ?_⟩ <;>
      (rw [hevs, hev]; simp [List.count_append, List.count_cons]; omega)
  · exfalso
    have hvf : w.validate req.url = false := by
      cases hb : w.validate req.url
      · rfl
      · exact absurd hb hval
    rw [show (downloadHandler w req sid st0).pipeline = none from by
      simp [downloadHandler, hvf]] at herr
    simp at herr

theorem pipeline_error_caught_witness :
    mapGet (downloadHandler failAudioWorld mp3Req "S" emptySt).st.map "S" =
      some (errorRec "network error") :=
  (pipeline_error_caught failAudioWorld mp3Req "S" emptySt "network error"
    rfl rfl).1

/-- C3 counterexample: the hourly sweep does not remove a record written by
the server even when it is far more than an hour old (the concrete record
below was created at server time 0 and the sweep runs at time 7.2e9 ms),
because no write ever sets the `timestamp` the sweep tests; moreover
another mechanism does remove entries: the file-serving route's deferred
cleanup deletes the session's entry. -/
theorem progress_eviction_cex :
    sweepOnce 7200000000 [("S", initRec)] = [("S", initRec)] ∧
    ([("S", initRec)] : List (String × ProgRec)) ≠ [] ∧
    mapGet (fileServeCleanup
        { map := [("S", mergedCompletedRec "T" "S")],
          disk := [mergedPath "T" "S"], events := [] } "S"
        (mergedPath "T" "S")).map "S" = none := by
  refine ⟨by decide, by decide, by decide⟩

/-- C3 (amended): the hourly sweep removes only entries whose record carries
a truthy `timestamp` older than one hour; no record the server ever writes
carries a timestamp, so the sweep removes none of them; and the progress
map loses entries through another mechanism: the file-serving route's
deferred cleanup deletes the served session's entry. -/
theorem progress_eviction :
    (∀ (now : Nat) (m : List (String × ProgRec)),
        (∀ p ∈ m, (p : String × ProgRec).2.timestamp = none) →
        sweepOnce now m = m) ∧
    (∀ (w : World) (req : Request) (sid k : String) (r : ProgRec),
        Event.setP k r ∈ (downloadHandler w req sid emptySt).st.events →
        r.timestamp = none) ∧
    (∀ (st : St) (sid fp : String), existsF st fp = true →
        mapGet (fileServeCleanup st sid fp).map sid = none) := by
  refine ⟨?_, ?_, ?_⟩
  · intro now m h
    unfold sweepOnce
    refine List.filter_eq_self.mpr ?_
    intro p hp
    simp [sweepKeep, h p hp]
  · intro w req sid k r hmem
    by_cases hval : w.validate req.url = true
    · obtain ⟨zs, hevs, hsess, -, -, -, -, -, -⟩ :=
        downloadHandler_facts w req sid emptySt hval
      rw [hevs] at hmem
      rcases List.mem_append.mp hmem with h | h
      · rcases List.mem_append.mp h with h | h
        · simp [emptySt] at h
        · simp at h
          rcases h with ⟨hk, hr⟩
          rw [hr]
          rfl
      · exact (hsess _ h).2.2
    · have hvf : w.validate req.url = false := by
        cases hb : w.validate req.url
        · rfl
        · exact absurd hb hval
      rw [show (downloadHandler w req sid emptySt).st = emptySt from by
        simp [downloadHandler, hvf]] at hmem
      simp [emptySt] at hmem
  · intro st sid fp hex
    unfold fileServeCleanup
    rw [if_pos hex]
    exact mapGet_mapDel_self _ _

theorem progress_eviction_witness :
    sweepOnce 42 [("R", errorRec "boom")] = [("R", errorRec "boom")] ∧
    mapGet (fileServeCleanup
        { map := [("R", mp3CompletedRec "T" "R")], disk := [mp3Path "T" "R"],
          events := [] } "R" (mp3Path "T" "R")).map "R" = none :=
  ⟨progress_eviction.1 42 _ (by decide),
   progress_eviction.2.2
     { map := [("R", mp3CompletedRec "T" "R")], disk := [mp3Path "T" "R"],
       events := [] } "R" (mp3Path "T" "R") (by decide)⟩

/-- C4 counterexample: on a concrete accepted mp3 request whose audio stream
errors, the session ends in status `error`, yet the partially written file
`temp/T_S.mp3` is still on disk — the error cleanup exists only on the
FFmpeg-merge path. -/
theorem temp_file_cleanup_cex :
    (downloadHandler failAudioWorld mp3Req "S" emptySt).st.disk =
      [mp3Path "T" "S"] ∧
    mapGet (downloadHandler failAudioWorld mp3Req "S" emptySt).st.map "S" =
      some (errorRec "network error") ∧
    (downloadHandler failAudioWorld mp3Req "S" emptySt).st.disk ≠ [] := by
  refine ⟨by decide, by decide, by decide⟩

/-- C4 (amended): every temp file the backend creates is named using the
generated session id; the FFmpeg-merge path removes all of its files when
it fails; and the file served to the client is deleted by the deferred
cleanup; but the mp3 and regular-video paths do not delete their partial
file when they fail. -/
theorem temp_file_cleanup (w : World) (req : Request) (sid : String) :
    (∀ p, Event.createFile p ∈ (downloadHandler w req sid emptySt).st.events →
        ∃ pre post, p = pre ++ sid ++ post) ∧
    ((req.itag = some "ffmpeg-best" ∨ req.itag = some "ffmpeg-medium") →
      req.format ≠ some "mp3" →
      (∃ e, (downloadHandler w req sid emptySt).pipeline = some (.error e)) →
      (downloadHandler w req sid emptySt).st.disk = []) ∧
    (∀ (st : St) (fp : String),
      ((fileServeCleanup st sid fp).disk.contains fp) = false) := by
  refine ⟨?_, ?_, ?_⟩
  · intro p hmem
    by_cases hval : w.validate req.url = true
    · obtain ⟨zs, hevs, hsess, -, -, -, -, -, -⟩ :=
        downloadHandler_facts w req sid emptySt hval
      rw [hevs] at hmem
      rcases List.mem_append.mp hmem with h | h
      · rcases List.mem_append.mp h with h | h
        · simp [emptySt] at h
        · simp at h
      · exact hsess _ h
    · have hvf : w.validate req.url = false := by
        cases hb : w.validate req.url
        · rfl
        · exact absurd hb hval
      rw [show (downloadHandler w req sid emptySt).st = emptySt from by
        simp [downloadHandler, hvf]] at hmem
      simp [emptySt] at hmem
  · intro hpre hfmt hex
    by_cases hval : w.validate req.url = true
    · obtain ⟨-, -, -, -, -, -, -, -, hdisk⟩ :=
        downloadHandler_facts w req sid emptySt hval
      exact hdisk hpre hfmt rfl hex
    · have hvf : w.validate req.url = false := by
        cases hb : w.validate req.url
        · rfl
        · exact absurd hb hval
      rcases hex with ⟨e, he⟩
      rw [show (downloadHandler w req sid emptySt).pipeline = none from by
        simp [downloadHandler, hvf]] at he
      simp at he
  · intro st fp
    unfold fileServeCleanup
    by_cases hex : existsF st fp
    · rw [if_pos hex]
      exact contains_filter_self _ _
    · rw [if_neg hex]
      exact Bool.of_not_eq_true hex

theorem temp_file_cleanup_witness :
    (∃ pre post, mp3Path "T" "S" = pre ++ "S" ++ post) ∧
    (((fileServeCleanup emptySt "S" "f").disk.contains "f") = false) :=
  ⟨(temp_file_cleanup sampleWorld mp3Req "S").1 (mp3Path "T" "S") (by decide),
   (temp_file_cleanup sampleWorld mp3Req "S").2.2 emptySt "f"⟩

/-- C6: every accepted download request is answered 200 with the freshly
generated session id, and this response event precedes all pipeline work in
the trace (the only earlier event is the initializing write); thereafter
the progress route returns exactly the stored record for that session id. -/
theorem async_session_response (w : World) (req : Request) (sid : String) (st0 : St)
    (hval : w.validate req.url = true) (hev : st0.events = []) :
    (downloadHandler w req sid st0).code = 200 ∧
    (downloadHandler w req sid st0).body = DlBody.started sid ∧
    (∃ rest, (downloadHandler w req sid st0).st.events =
        Event.setP sid initRec :: Event.respond 200 :: rest) ∧
    (∀ (st' : St) (r : ProgRec), mapGet st'.map sid = some r →
        progressHandler st' sid = (st', 200, ProgBody.found r)) := by
  obtain ⟨h200, hbody⟩ := downloadHandler_response w req sid st0 hval
  obtain ⟨zs, hevs, -, -, -, -, -, -, -⟩ := downloadHandler_facts w req sid st0 hval
  refine ⟨h200, hbody, ⟨zs, ?_⟩, ?_⟩
  · rw [hevs, hev]
    simp
  · intro st' r h
    simp [progressHandler, h]

theorem async_session_response_witness :
    (downloadHandler sampleWorld ffmpegReq "S" emptySt).code = 200 ∧
    (downloadHandler sampleWorld ffmpegReq "S" emptySt).body = DlBody.started "S" :=
  ⟨(async_session_response sampleWorld ffmpegReq "S" emptySt rfl rfl).1,
   (async_session_response sampleWorld ffmpegReq "S" emptySt rfl rfl).2.1⟩

/-- C7 counterexample: a concrete completed session's record carries a
`filePath` and a `filename` — fields outside the shape the claim states
(status, percent, stage, optional byte counters, optional error). -/
theorem progress_record_shape_cex :
    mapGet (downloadHandler sampleWorld mp3Req "S" emptySt).st.map "S" =
      some (mp3CompletedRec "T" "S") ∧
    (mp3CompletedRec "T" "S").filename = some "T.mp3" ∧
    (mp3CompletedRec "T" "S").filePath = some (mp3Path "T" "S") := by
  refine ⟨by decide, rfl, rfl⟩

/-- C7 (amended): every record any pipeline stage stores is keyed by the
generated session id and has a status from the fixed enumeration, a numeric
progress percent and a stage string (by the record type), optional byte
counters and error message — and additionally an optional output file path,
filename and ffmpeg progress detail on completion/merge records. -/
theorem progress_record_shape (w : World) (req : Request) (sid k : String) (r : ProgRec)
    (hmem : Event.setP k r ∈ (downloadHandler w req sid emptySt).st.events) :
    k = sid ∧ r.status ∈ statusEnum := by
  by_cases hval : w.validate req.url = true
  · obtain ⟨zs, hevs, hsess, -, -, -, -, -, -⟩ :=
      downloadHandler_facts w req sid emptySt hval
    rw [hevs] at hmem
    rcases List.mem_append.mp hmem with h | h
    · rcases List.mem_append.mp h with h | h
      · simp [emptySt] at h
      · simp at h
        rcases h with ⟨hk, hr⟩
        refine ⟨hk, ?_⟩
        rw [hr]
        simp [initRec, statusEnum]
    · exact ⟨(hsess _ h).1, (hsess _ h).2.1⟩
  · have hvf : w.validate req.url = false := by
      cases hb : w.validate req.url
      · rfl
      · exact absurd hb hval
    rw [show (downloadHandler w req sid emptySt).st = emptySt from by
      simp [downloadHandler, hvf]] at hmem
    simp [emptySt] at hmem

theorem progress_record_shape_witness :
    ("S" : String) = "S" ∧ (mp3CompletedRec "T" "S").status ∈ statusEnum :=
  progress_record_shape sampleWorld mp3Req "S" "S" (mp3CompletedRec "T" "S") (by decide)

end YT
